import Mathlib

/-!
# Verification of the novel-formatter EPUB merge/rewrite core

This file gives a shallow embedding, in Lean 4, of the pure core of the
`internal/epub` package of the `novel-formatter` repository (the merge
engine, the volume loader's decision logic, the navigation parser and the
string/path utilities), and proves or refutes the frozen claims about it.

Conventions of the embedding:
* Go strings are Lean `String`s; most character-level work is done on
  `List Char` (the `data` of a string) so that proofs can proceed by list
  induction and witnesses evaluate by `decide` / `rfl`.
* Go's `strings.Fields`, `strings.TrimSpace`, `path.Clean`, `path.Join`
  are re-implemented faithfully (lexical algorithms only).
* Side-effecting functions (`unzip`, `loadVolume`, `MergeEPUBs`,
  `writeZip`) are embedded as pure functions over an explicit environment
  describing the outcome of the external I/O steps (archive entries,
  parsed documents, readability of files), returning `Except` values plus
  explicit resource-state flags (temp-directory released, state of the
  output path).
* The XML token stream that Go's `encoding/xml` decoder would produce is
  taken as the input of the navigation parser; the byte-level decoder is
  Go library code, not code of this repository.
* `crypto/rand` is modelled by passing the sixteen random bytes (and a
  success flag, since `rand.Read`'s error branch is real code in
  `randomURN`) as explicit arguments.
-/

namespace Novfmt

/-! ## Character-list helpers (models of Go `strings` functions) -/

/-- Model of Go `strings.TrimSpace` on a character list: drop leading and
trailing whitespace. -/
def trimList (l : List Char) : List Char :=
  ((l.dropWhile Char.isWhitespace).reverse.dropWhile Char.isWhitespace).reverse

/-- Model of Go `strings.TrimSpace`. -/
def goTrim (s : String) : String := String.mk (trimList s.data)

/-- Accumulator-passing core of Go `strings.Fields`: split around runs of
whitespace, returning the non-empty words in order. `acc` holds the current
word reversed. -/
def fieldsAux : List Char → List Char → List (List Char)
  | [], acc => if acc.isEmpty then [] else [acc.reverse]
  | c :: cs, acc =>
    if c.isWhitespace then
      if acc.isEmpty then fieldsAux cs [] else acc.reverse :: fieldsAux cs []
    else fieldsAux cs (c :: acc)

/-- Model of Go `strings.Fields`. -/
def goFields (s : String) : List String :=
  (fieldsAux s.data []).map String.mk

/-- Split a character list at every occurrence of `sep`, keeping empty
segments (model of Go `strings.Split` for a one-character separator). -/
def splitChAux (sep : Char) : List Char → List Char → List (List Char)
  | [], acc => [acc.reverse]
  | c :: cs, acc =>
    if c = sep then acc.reverse :: splitChAux sep cs []
    else splitChAux sep cs (c :: acc)

/-- Split at the first occurrence of `sep` only (model of Go
`strings.SplitN(s, sep, 2)` for a one-character separator): returns the
part before the separator and, when the separator occurs, the part after. -/
def splitFirstCh (sep : Char) : List Char → List Char × Option (List Char)
  | [] => ([], none)
  | c :: cs =>
    if c = sep then ([], some cs)
    else
      let r := splitFirstCh sep cs
      (c :: r.1, r.2)

/-- Model of Go `strings.Contains` (substring search). -/
def containsList (sub : List Char) : List Char → Bool
  | [] => sub.isEmpty
  | s@(_ :: cs) => sub.isPrefixOf s || containsList sub cs

/-! ## `internal/epub/util.go` -/

/-- Embedding of `hasProperty` (util.go): membership of `target` in the
whitespace-separated fields of `props`. -/
def hasProperty (props target : String) : Bool :=
  (goFields props).contains target

/-- Embedding of `addProperty` (util.go). -/
def addProperty (props target : String) : String :=
  if target = "" then props
  else if hasProperty props target then props
  else if goTrim props = "" then target
  else props ++ " " ++ target

/-! ## Lexical path cleaning (Go `path.Clean`, `path.Join`) -/

/-- Stack step of `path.Clean`'s `..` handling: `rooted` tells whether the
path is absolute. -/
def cleanStep (rooted : Bool) (stack : List String) (comp : String) : List String :=
  if comp = ".." then
    if stack ≠ [] ∧ stack.getLast? ≠ some ".." then stack.dropLast
    else if rooted then stack
    else stack ++ [".."]
  else stack ++ [comp]

/-- Model of Go `path.Clean`: a purely lexical simplification — collapse
slashes, drop `.` components, resolve `..` against preceding components,
keep leading `..` of relative paths, never escape the root of absolute
paths. -/
def pathClean (p : String) : String :=
  if p = "" then "."
  else
    let rooted := p.data.head? = some '/'
    let comps := ((splitChAux '/' p.data []).map String.mk).filter
      (fun c => c ≠ "" ∧ c ≠ ".")
    let out := comps.foldl (cleanStep rooted) []
    if out = [] then (if rooted then "/" else ".")
    else (if rooted then "/" else "") ++ String.intercalate "/" out

/-- Model of Go `path.Join` restricted to two elements, as used by the
source: join the non-empty elements with `/` and clean the result. -/
def pathJoin (a b : String) : String :=
  if a ≠ "" then pathClean (a ++ "/" ++ b)
  else if b ≠ "" then pathClean b
  else ""

/-- Embedding of `normalizeEPUBPath` (merge engine): replace every
backslash by a slash, then `path.Clean`. -/
def normalizeEPUBPath (p : String) : String :=
  pathClean (String.mk (p.data.map fun c => if c = '\\' then '/' else c))

/-! ## `joinHref` (nav.go) -/

/-- Embedding of `joinHref` (nav.go): trim the href; the empty href, a
fragment-only href and an href containing `://` pass through; otherwise
join the part before any `#` with the prefix, normalize, and re-attach the
fragment. -/
def joinHref (pre href : String) : String :=
  let href := goTrim href
  if href = "" then ""
  else if href.data.head? = some '#' || containsList "://".data href.data then href
  else
    let parts := splitFirstCh '#' href.data
    let base := String.mk parts.1
    match parts.2 with
    | some frag =>
      if base = "" then "#" ++ String.mk frag
      else normalizeEPUBPath (pathJoin pre base) ++ "#" ++ String.mk frag
    | none => normalizeEPUBPath (pathJoin pre base)

/-! ## Id remapping helpers of the merge engine -/

/-- Zero-padding to width four, as produced by Go's `%04d` verb on the
(positive) volume number. -/
def pad4 (n : Nat) : String :=
  let s := Nat.repr n
  if s.length < 4 then String.mk (List.replicate (4 - s.length) '0') ++ s else s

/-- Embedding of the merge engine's id remapping
`fmt.Sprintf("v%04d_%s", vol.Index+1, id)`. -/
def remapID (idx : Nat) (id : String) : String :=
  "v" ++ pad4 (idx + 1) ++ "_" ++ id

/-- The path prefix assigned to a volume:
`path.Join("Volumes", fmt.Sprintf("v%04d", idx+1))`. -/
def volumePrefixDir (idx : Nat) : String :=
  pathJoin "Volumes" ("v" ++ pad4 (idx + 1))

/-! ## Container/package data model

The struct declarations themselves live in a source file that is not part
of `src/`; their fields are reconstructed exactly from every use in the
source that is available (loader, merge engine, tests). -/

/-- A Dublin-Core metadata node (`dc:title`, `dc:creator`, …): the fields
`ID` and `Value` are the ones the source reads and writes. -/
structure DCMeta where
  ID : String := ""
  Value : String := ""
deriving DecidableEq

/-- A free-form `meta` node: `Name`/`Content` pairs (EPUB 2 style) and
`Property`/`Value` pairs (EPUB 3 style). -/
structure MetaNode where
  Name : String := ""
  Content : String := ""
  Property : String := ""
  Value : String := ""
deriving DecidableEq

/-- Package metadata: ordered lists of titles, languages, creators,
identifiers and free-form meta nodes. -/
structure Metadata where
  Titles : List DCMeta := []
  Languages : List DCMeta := []
  Creators : List DCMeta := []
  Identifiers : List DCMeta := []
  Meta : List MetaNode := []
deriving DecidableEq

/-- A manifest item: id, href, media type, space-separated property
tokens, optional fallback id reference. -/
structure ManifestItem where
  ID : String := ""
  Href : String := ""
  MediaType : String := ""
  Properties : String := ""
  Fallback : String := ""
deriving DecidableEq

/-- The manifest: the ordered list of items. -/
structure Manifest where
  Items : List ManifestItem := []
deriving DecidableEq

/-- A spine item reference. -/
structure SpineItemRef where
  IDRef : String := ""
  Linear : String := ""
deriving DecidableEq

/-- The spine: ordered item references plus the optional
page-progression-direction. -/
structure Spine where
  Itemrefs : List SpineItemRef := []
  PageProgressionDirection : String := ""
deriving DecidableEq

/-- The package document root. -/
structure PackageDocument where
  XMLNS : String := ""
  XMLNSDC : String := ""
  XMLNSOPF : String := ""
  Version : String := ""
  UniqueIdentifier : String := ""
  Lang : String := ""
  Metadata : Metadata := {}
  Manifest : Manifest := {}
  Spine : Spine := {}
  PrefixDecl : String := ""
deriving DecidableEq

/-- Options consumed by `MergeEPUBs` (built by the CLI). -/
structure MergeOptions where
  Title : String := ""
  Language : String := ""
  Creators : List String := []
  OutPath : String := ""
deriving DecidableEq

/-- `META-INF/container.xml` rootfile entry. -/
structure ContainerRootfile where
  FullPath : String := ""
deriving DecidableEq

/-- Parsed `META-INF/container.xml`. -/
structure ContainerRoot where
  Rootfiles : List ContainerRootfile := []
deriving DecidableEq

/-! ## Navigation tree and navigation-document parser (nav.go)

The parser consumes the token stream that Go's `encoding/xml` decoder
produces for the navigation document; tokens are start elements (with
attributes), end elements and character data.  The decoder itself is Go
library code and is not embedded. -/

/-- A table-of-contents node. -/
inductive NavItem where
  | mk (Title : String) (Href : String) (Children : List NavItem)

/-- Title accessor. -/
def NavItem.Title : NavItem → String
  | .mk t _ _ => t

/-- Href accessor. -/
def NavItem.Href : NavItem → String
  | .mk _ h _ => h

/-- Children accessor. -/
def NavItem.Children : NavItem → List NavItem
  | .mk _ _ c => c

/-- Functional update of the href. -/
def NavItem.setHref : NavItem → String → NavItem
  | .mk t _ c, h => .mk t h c

/-- Functional update of the title. -/
def NavItem.setTitle : NavItem → String → NavItem
  | .mk _ h c, t => .mk t h c

/-- Append one child. -/
def NavItem.addChild : NavItem → NavItem → NavItem
  | .mk t h c, child => .mk t h (c ++ [child])

/-- An XML element or attribute name, split into namespace and local part
as by Go's decoder. -/
structure XmlName where
  Space : String := ""
  Local : String := ""
deriving DecidableEq

/-- An XML attribute. -/
structure XmlAttr where
  Name : XmlName := {}
  Value : String := ""
deriving DecidableEq

/-- One decoder token. -/
inductive XmlToken where
  | startEl (name : XmlName) (attrs : List XmlAttr)
  | endEl (name : XmlName)
  | charData (text : String)

/-- The EPUB operations namespace checked by `hasTOCTypeAttr`. -/
def navNS : String := "http://www.idpf.org/2007/ops"

/-- Embedding of `hasTOCTypeAttr` (nav.go): some attribute whose local
name is `type`, whose namespace is empty or the EPUB ops namespace, and
whose value has `toc` among its whitespace-separated fields. -/
def hasTOCTypeAttr (attrs : List XmlAttr) : Bool :=
  attrs.any fun a =>
    a.Name.Local = "type" &&
    (a.Name.Space = "" || a.Name.Space = navNS) &&
    (goFields a.Value).contains "toc"

/-- Embedding of `normalizeSpace` (nav.go): trim, then collapse runs of
whitespace to single spaces. -/
def normalizeSpace (s : String) : String :=
  if goTrim s = "" then "" else String.intercalate " " (goFields s)

/-- The mutable per-`li` allocation of the Go parser: the `NavItem` in
progress plus its text accumulator. -/
structure NavEntryState where
  item : NavItem := .mk "" "" []
  text : String := ""

/-- The parser state: finished top-level items, the stack of open lists
(`none` = the root list, `some i` = the children of allocation `i`), the
stack of open `li` allocations, the allocation store, the in-TOC flag, the
nav depth counter and the next fresh allocation id. -/
structure NavParseState where
  items : List NavItem := []
  listStack : List (Option Nat) := []
  liStack : List Nat := []
  store : List (Nat × NavEntryState) := []
  inTOC : Bool := false
  navDepth : Nat := 0
  nextId : Nat := 0

/-- Read an allocation from the store. -/
def storeGet (st : List (Nat × NavEntryState)) (i : Nat) : NavEntryState :=
  (((st.find? (fun p => p.1 = i))).map (fun p => p.2)).getD {}

/-- Overwrite an allocation in the store. -/
def storeSet (st : List (Nat × NavEntryState)) (i : Nat) (e : NavEntryState) :
    List (Nat × NavEntryState) :=
  st.map fun p => if p.1 = i then (i, e) else p

/-- One step of the token loop of `parseNavDocument`.  `Sum.inl items` is
the early `return items, nil` taken when the TOC `nav` element closes. -/
def navStep (tok : XmlToken) (st : NavParseState) :
    Sum (List NavItem) NavParseState :=
  match tok with
  | .startEl name attrs =>
    if name.Local = "nav" then
      if !st.inTOC && hasTOCTypeAttr attrs then
        .inr { st with inTOC := true, navDepth := 1 }
      else if st.inTOC then .inr { st with navDepth := st.navDepth + 1 }
      else .inr st
    else if !st.inTOC then .inr st
    else if name.Local = "ol" then
      let target : Option Nat :=
        match st.liStack with
        | i :: _ => some i
        | [] => none
      .inr { st with listStack := target :: st.listStack }
    else if name.Local = "li" then
      .inr { st with liStack := st.nextId :: st.liStack,
                     store := (st.nextId, {}) :: st.store,
                     nextId := st.nextId + 1 }
    else if name.Local = "a" then
      match st.liStack with
      | [] => .inr st
      | i :: _ =>
        let e := storeGet st.store i
        if e.item.Href ≠ "" then .inr st
        else
          match attrs.find? (fun a => a.Name.Local = "href") with
          | some a =>
            .inr { st with
              store := storeSet st.store i
                { e with item := e.item.setHref (goTrim a.Value) } }
          | none => .inr st
    else .inr st
  | .endEl name =>
    if name.Local = "nav" && st.inTOC then
      if st.navDepth - 1 = 0 then .inl st.items
      else .inr { st with navDepth := st.navDepth - 1 }
    else if !st.inTOC then .inr st
    else if name.Local = "ol" then
      .inr { st with listStack := st.listStack.tail }
    else if name.Local = "li" then
      match st.liStack with
      | [] => .inr st
      | i :: rest =>
        let e := storeGet st.store i
        let store1 := storeSet st.store i
          { e with item := e.item.setTitle (normalizeSpace e.text) }
        let finalized := (storeGet store1 i).item
        match st.listStack with
        | some p :: _ =>
          let pe := storeGet store1 p
          .inr { st with liStack := rest,
                         store := storeSet store1 p
                           { pe with item := pe.item.addChild finalized } }
        | _ =>
          .inr { st with liStack := rest, store := store1,
                         items := st.items ++ [finalized] }
    else .inr st
  | .charData s =>
    if !st.inTOC then .inr st
    else
      match st.liStack with
      | [] => .inr st
      | i :: _ =>
        let e := storeGet st.store i
        .inr { st with store := storeSet st.store i { e with text := e.text ++ s } }

/-- The token loop of `parseNavDocument`: step through the tokens until
the early return or the end of the stream; at end of stream an empty item
list is the "toc nav not found" error. -/
def parseNavLoop : List XmlToken → NavParseState → Except String (List NavItem)
  | [], st => if st.items.isEmpty then .error "toc nav not found" else .ok st.items
  | t :: ts, st =>
    match navStep t st with
    | .inl items => .ok items
    | .inr st1 => parseNavLoop ts st1

/-- Embedding of `parseNavDocument` (nav.go), over the decoder's token
stream. -/
def parseNavDocument (toks : List XmlToken) : Except String (List NavItem) :=
  parseNavLoop toks {}

/-! ## Volume loader (`loadVolume`, `unzip`)

`loadVolume` is embedded as a pure function over an environment recording
the outcome of each external I/O step: the archive's entry list (or a
failure to open it), the parsed container and package documents (or their
read/parse failures) and the nav document's token stream (or its read
failure).  The outcome carries the result plus an explicit flag telling
whether the volume's temp directory was removed (`os.RemoveAll` in the
`cleanup` helper) before returning.  Context cancellation is external and
is not modelled. -/

/-- One archive entry as seen by `unzip`: its name, whether it is a
directory, and whether its data can be read/copied (`none` = the open,
copy or create step for this entry fails). -/
structure ZipEntry where
  Name : String := ""
  IsDir : Bool := false
  Content : Option String := some ""
deriving DecidableEq

/-- Go `strings.HasPrefix`. -/
def goHasPrefix (s pre : String) : Bool :=
  pre.data.isPrefixOf s.data

/-- The extraction target `filepath.Join(dst, filepath.FromSlash(f.Name))`
computed by `unzip` (Linux path semantics: `FromSlash` is the identity and
`filepath.Clean` coincides with `path.Clean`). -/
def entryTarget (dst name : String) : String :=
  pathJoin dst name

/-- The meaning of "the extraction target lies inside the destination
directory" used by the specification: the cleaned target is the
destination itself or sits strictly below it. -/
def insideDest (dst target : String) : Bool :=
  target = dst || goHasPrefix target (dst ++ "/")

/-- Embedding of the entry loop of `unzip`: each entry's target must have
the destination as a string prefix, directories are created, files are
copied (a `none` content models a failing open/create/copy). -/
def unzipEntries (dst : String) : List ZipEntry → Except String Unit
  | [] => .ok ()
  | e :: es =>
    let target := entryTarget dst e.Name
    if !goHasPrefix target dst then
      .error ("zip entry " ++ e.Name ++ " escapes destination")
    else if e.IsDir then unzipEntries dst es
    else
      match e.Content with
      | none => .error ("copy " ++ e.Name)
      | some _ => unzipEntries dst es

/-- Embedding of `unzip`: `none` models `zip.OpenReader` failing. -/
def unzip (dst : String) : Option (List ZipEntry) → Except String Unit
  | none => .error "open zip"
  | some entries => unzipEntries dst entries

/-- Environment for one `loadVolume` call. -/
structure LoadEnv where
  entries : Option (List ZipEntry) := some []
  containerDoc : Option ContainerRoot := some {}
  pkgDoc : Option PackageDocument := some {}
  navDoc : Option (List XmlToken) := some []
deriving Inhabited

/-- The loaded representation of one source archive. -/
structure Volume where
  Index : Nat := 0
  SourcePath : String := ""
  TempDir : String := ""
  RootDir : String := ""
  PackagePath : String := ""
  PackageDir : String := ""
  PackageDoc : PackageDocument := {}
  NavHref : String := ""
  NavItems : List NavItem := []
  DisplayName : String := ""
  PrefixDir : String := ""
  FirstHref : String := ""
  CoverID : String := ""

/-- Result of `loadVolume` plus the temp-directory state. -/
structure LoadOutcome where
  result : Except String Volume
  tempReleased : Bool

/-- Go `filepath.Dir` (Linux): everything up to the last slash, cleaned;
`"."` when there is no slash. -/
def pathDir (p : String) : String :=
  let pre := ((p.data.reverse.dropWhile (fun c => c ≠ '/'))).reverse
  if pre = [] then "." else pathClean (String.mk pre)

/-- Go `strings.EqualFold`, modelled as case-insensitive comparison via
lowercasing (adequate for the ASCII names the source compares). -/
def eqFold (a b : String) : Bool :=
  a.toLower = b.toLower

/-- The nav href detection of `loadVolume`: the href of the first manifest
item carrying the `nav` property, else empty. -/
def detectNavHref (pkg : PackageDocument) : String :=
  match pkg.Manifest.Items.find? (fun it => hasProperty it.Properties "nav") with
  | some it => it.Href
  | none => ""

/-- The cover detection of `loadVolume`: first a `meta` node named `cover`
with non-blank content, else the first manifest item carrying the
`cover-image` property. -/
def detectCoverID (pkg : PackageDocument) : String :=
  match pkg.Metadata.Meta.find?
      (fun m => eqFold m.Name "cover" && goTrim m.Content ≠ "") with
  | some m => goTrim m.Content
  | none =>
    match pkg.Manifest.Items.find?
        (fun it => hasProperty it.Properties "cover-image") with
    | some it => it.ID
    | none => ""

/-- The display-name assignment of `loadVolume`: the first title when its
trimmed value is non-blank, else the positional fallback `Volume N` with
`N = idx+1`. -/
def displayName (idx : Nat) (Titles : List DCMeta) : String :=
  match Titles with
  | t :: _ =>
    if goTrim t.Value ≠ "" then t.Value else "Volume " ++ Nat.repr (idx + 1)
  | [] => "Volume " ++ Nat.repr (idx + 1)

/-- Embedding of `loadVolume`: run the pipeline, releasing the temp
directory (the `cleanup` helper) on every error path. -/
def loadVolume (idx : Nat) (source tmpDir : String) (env : LoadEnv) : LoadOutcome :=
  match unzip tmpDir env.entries with
  | .error e => ⟨.error ("extract " ++ source ++ ": " ++ e), true⟩
  | .ok _ =>
    match env.containerDoc with
    | none => ⟨.error "container.xml", true⟩
    | some root =>
      match root.Rootfiles with
      | [] => ⟨.error "container missing rootfile", true⟩
      | rf :: _ =>
        let pkgRel := pathClean rf.FullPath
        let pkgPath := pathJoin tmpDir pkgRel
        match env.pkgDoc with
        | none => ⟨.error ("read package " ++ pkgRel), true⟩
        | some pkg =>
          let navHref := detectNavHref pkg
          let coverID := detectCoverID pkg
          let navItemsRes : Except String (List NavItem) :=
            if navHref ≠ "" then
              match env.navDoc with
              | none => .error "read nav file"
              | some toks => parseNavDocument toks
            else .ok []
          match navItemsRes with
          | .error e => ⟨.error ("parse nav " ++ navHref ++ ": " ++ e), true⟩
          | .ok navItems =>
            ⟨.ok { Index := idx, SourcePath := source, TempDir := tmpDir,
                   RootDir := tmpDir, PackagePath := pkgPath,
                   PackageDir := pathDir pkgPath, PackageDoc := pkg,
                   NavHref := navHref, NavItems := navItems,
                   DisplayName := displayName idx pkg.Metadata.Titles,
                   CoverID := coverID }, false⟩

/-! ## Merge engine: manifest / spine assembly (`MergeEPUBs` main loop) -/

/-- The accumulating state of the per-volume loop of `MergeEPUBs`:
merged manifest items, the global id-to-href map, the chosen cover item
id, the page-progression-direction, and the merged spine refs.  Both maps
are association lists with the newest binding in front, matching the
last-write-wins behaviour of a Go map. -/
structure MergeAcc where
  items : List ManifestItem := []
  idHref : List (String × String) := []
  coverItemID : String := ""
  pageDir : String := ""
  refs : List SpineItemRef := []

/-- Go map lookup on an association list (newest binding first). -/
def lookupAssoc (m : List (String × String)) (k : String) : Option String :=
  (m.find? (fun p => p.1 = k)).map (fun p => p.2)

/-- One iteration of the manifest-item loop: skip the volume's nav item,
remap the id, rewrite the href under the volume prefix, remap the
fallback, pick the cover (first volume that supplies one wins, the
`cover-image` property being added idempotently). -/
def processItem (idx : Nat) (volCover : String) (acc : MergeAcc)
    (idMap : List (String × String)) (item : ManifestItem) :
    MergeAcc × List (String × String) :=
  if hasProperty item.Properties "nav" then (acc, idMap)
  else
    let newID := remapID idx item.ID
    let idMap1 := (item.ID, newID) :: idMap
    let href := normalizeEPUBPath (pathJoin (volumePrefixDir idx) item.Href)
    let entry0 : ManifestItem :=
      { ID := newID, Href := href, MediaType := item.MediaType,
        Properties := item.Properties,
        Fallback := if item.Fallback ≠ "" then remapID idx item.Fallback else "" }
    let pick : Bool :=
      acc.coverItemID = "" &&
      ((volCover ≠ "" && item.ID = volCover) ||
       (volCover = "" && hasProperty item.Properties "cover-image"))
    let entry :=
      if pick then { entry0 with Properties := addProperty entry0.Properties "cover-image" }
      else entry0
    ({ acc with items := acc.items ++ [entry],
                coverItemID := if pick then newID else acc.coverItemID,
                idHref := (newID, href) :: acc.idHref }, idMap1)

/-- The manifest-item loop over one volume's items. -/
def processItems (idx : Nat) (volCover : String) :
    List ManifestItem → MergeAcc → List (String × String) →
    MergeAcc × List (String × String)
  | [], acc, m => (acc, m)
  | it :: its, acc, m =>
    let r := processItem idx volCover acc m it
    processItems idx volCover its r.1 r.2

/-- The spine loop over one volume's item-refs: refs that do not resolve
through the volume's id map are silently dropped; the first resolved href
is recorded as the volume's first content href. -/
def processRefs (idMap idHref : List (String × String)) :
    List SpineItemRef → List SpineItemRef → String →
    List SpineItemRef × String
  | [], out, fh => (out, fh)
  | r :: rs, out, fh =>
    match lookupAssoc idMap r.IDRef with
    | none => processRefs idMap idHref rs out fh
    | some newID =>
      let fh1 := if fh = "" then (lookupAssoc idHref newID).getD "" else fh
      processRefs idMap idHref rs (out ++ [{ IDRef := newID, Linear := r.Linear }]) fh1

/-- One volume's pass of the merge loop (payload copying is external I/O
and not part of the manifest/spine computation). -/
def mergeVolume (acc : MergeAcc) (vol : Volume) : MergeAcc × Volume :=
  let pre := volumePrefixDir vol.Index
  let r1 := processItems vol.Index vol.CoverID vol.PackageDoc.Manifest.Items acc []
  let acc1 := r1.1
  let idMap := r1.2
  let acc2 :=
    if acc1.pageDir = "" ∧ vol.PackageDoc.Spine.PageProgressionDirection ≠ "" then
      { acc1 with pageDir := vol.PackageDoc.Spine.PageProgressionDirection }
    else acc1
  let r2 := processRefs idMap acc2.idHref vol.PackageDoc.Spine.Itemrefs [] vol.FirstHref
  ({ acc2 with refs := acc2.refs ++ r2.1 },
   { vol with PrefixDir := pre, FirstHref := r2.2 })

/-- The whole per-volume loop, in input order. -/
def mergeVolumes : List Volume → MergeAcc → MergeAcc × List Volume
  | [], acc => (acc, [])
  | v :: vs, acc =>
    let r := mergeVolume acc v
    let rest := mergeVolumes vs r.1
    (rest.1, r.2 :: rest.2)

/-- The manifest entry appended for the merged navigation document. -/
def navManifestEntry : ManifestItem :=
  { ID := "nav", Href := "nav.xhtml", MediaType := "application/xhtml+xml",
    Properties := "nav" }

/-- The merged manifest/spine structures produced by `MergeEPUBs` before
package synthesis. -/
structure MergeStructures where
  manifest : Manifest
  spine : Spine
  coverItemID : String
  volumes : List Volume

/-- Embedding of the structural part of `MergeEPUBs`: run the per-volume
loop, then append the reserved `nav` manifest entry. -/
def mergeManifestSpine (vols : List Volume) : MergeStructures :=
  let r := mergeVolumes vols {}
  { manifest := { Items := r.1.items ++ [navManifestEntry] },
    spine := { Itemrefs := r.1.refs, PageProgressionDirection := r.1.pageDir },
    coverItemID := r.1.coverItemID,
    volumes := r.2 }

/-- A concrete two-volume merge input (used to instantiate the merge
invariants on a computable example). -/
def sampleMergeVols : List Volume :=
  [{ Index := 0, CoverID := "c1",
     PackageDoc :=
       { Manifest :=
           { Items := [{ ID := "c1", Href := "cover.png" },
                       { ID := "nav1", Href := "nav.xhtml", Properties := "nav" },
                       { ID := "ch", Href := "ch.xhtml" }] },
         Spine :=
           { Itemrefs := [{ IDRef := "ch", Linear := "yes" },
                          { IDRef := "nav1" }] } } },
   { Index := 1,
     PackageDoc :=
       { Manifest :=
           { Items := [{ ID := "ch", Href := "x/ch.xhtml",
                         Properties := "cover-image svg" }] },
         Spine :=
           { Itemrefs := [{ IDRef := "ch" }, { IDRef := "missing" }] } } }]

/-! ## Package synthesis (`buildPackage`, `randomURN`) -/

/-- The sixteen random bytes drawn by `randomURN` from `crypto/rand`. -/
structure Bytes16 where
  b0 : Nat := 0
  b1 : Nat := 0
  b2 : Nat := 0
  b3 : Nat := 0
  b4 : Nat := 0
  b5 : Nat := 0
  b6 : Nat := 0
  b7 : Nat := 0
  b8 : Nat := 0
  b9 : Nat := 0
  b10 : Nat := 0
  b11 : Nat := 0
  b12 : Nat := 0
  b13 : Nat := 0
  b14 : Nat := 0
  b15 : Nat := 0
deriving DecidableEq

/-- Well-formedness: every byte is below 256. -/
def Bytes16.wf (B : Bytes16) : Prop :=
  B.b0 < 256 ∧ B.b1 < 256 ∧ B.b2 < 256 ∧ B.b3 < 256 ∧
  B.b4 < 256 ∧ B.b5 < 256 ∧ B.b6 < 256 ∧ B.b7 < 256 ∧
  B.b8 < 256 ∧ B.b9 < 256 ∧ B.b10 < 256 ∧ B.b11 < 256 ∧
  B.b12 < 256 ∧ B.b13 < 256 ∧ B.b14 < 256 ∧ B.b15 < 256

instance (B : Bytes16) : Decidable B.wf := by
  unfold Bytes16.wf; infer_instance

/-- One lowercase hex digit (Go `%x`). -/
def hexDigit (n : Nat) : Char :=
  if n < 10 then Char.ofNat (48 + n) else Char.ofNat (87 + n)

/-- Fixed-width lowercase hex rendering, most significant digit first
(Go `%0wx` on a value below `16^w`). -/
def hexChars : Nat → Nat → List Char
  | 0, _ => []
  | w + 1, v => hexDigit (v / 16 ^ w % 16) :: hexChars w v

/-- `binary.BigEndian.Uint32` of four bytes. -/
def beU32 (a b c d : Nat) : Nat := a * 16777216 + b * 65536 + c * 256 + d

/-- `binary.BigEndian.Uint16` of two bytes. -/
def beU16 (a b : Nat) : Nat := a * 256 + b

/-- Embedding of `randomURN`: on a failed `rand.Read` the fixed all-zero
URN; otherwise force the version nibble (`b[6] = b[6]&0x0f | 0x40`) and
the variant bits (`b[8] = b[8]&0x3f | 0x80`) and format the five dashed
hex groups behind `urn:uuid:`. -/
def randomURN (randOk : Bool) (B : Bytes16) : String :=
  if !randOk then "urn:uuid:00000000-0000-0000-0000-000000000000"
  else
    let c6 := (B.b6 &&& 15) ||| 64
    let c8 := (B.b8 &&& 63) ||| 128
    String.mk ("urn:uuid:".data
      ++ hexChars 8 (beU32 B.b0 B.b1 B.b2 B.b3)
      ++ '-' :: hexChars 4 (beU16 B.b4 B.b5)
      ++ '-' :: hexChars 4 (beU16 c6 B.b7)
      ++ '-' :: hexChars 4 (beU16 c8 B.b9)
      ++ '-' :: (hexChars 2 B.b10 ++ hexChars 2 B.b11 ++ hexChars 2 B.b12
                 ++ hexChars 2 B.b13 ++ hexChars 2 B.b14 ++ hexChars 2 B.b15))

/-- The creator deduplication loop of `buildPackage`: trim, skip blanks,
skip names already seen. -/
def dedupTrim : List String → List String → List String
  | [], _ => []
  | c :: cs, seen =>
    let name := goTrim c
    if name = "" then dedupTrim cs seen
    else if seen.contains name then dedupTrim cs seen
    else name :: dedupTrim cs (name :: seen)

/-- A structurally-computing decidability witness for `≤` on `String`
(the library instance is produced by a tactic and does not reduce inside
the kernel, which would block `decide`-based witnesses). -/
def decLeString : DecidableRel (fun a b : String => a ≤ b) := fun a b =>
  decidable_of_iff (a.data ≤ b.data) String.le_iff_toList_le.symm

/-- Model of Go `sort.Strings`: the ascending sorted permutation (Go's
byte-wise order on UTF-8 agrees with the code-point lexicographic order
used here; equal strings are indistinguishable, so the sorted permutation
is unique). -/
def sortStrings (l : List String) : List String :=
  @List.insertionSort String (· ≤ ·) decLeString l

/-- The creators computation of `buildPackage`: the override list when
non-empty, else the deduplicated trimmed union over the volumes; a
placeholder when still empty; then — unconditionally — `sort.Strings`. -/
def buildCreators (optsCreators : List String) (vols : List Volume) : List String :=
  let creators :=
    if optsCreators ≠ [] then optsCreators
    else dedupTrim (vols.flatMap fun v => v.PackageDoc.Metadata.Creators.map (·.Value)) []
  let creators := if creators = [] then ["Unknown"] else creators
  sortStrings creators

/-- The OPF namespace (declared in the source file holding the struct
declarations, which is not under `src/`; the exact value plays no role in
any claim). -/
def nsOPF : String := "http://www.idpf.org/2007/opf"

/-- The Dublin-Core namespace (same remark as `nsOPF`). -/
def nsDC : String := "http://purl.org/dc/elements/1.1/"

/-- Embedding of `buildPackage`: title and language from override, else
first volume, else defaults; creators via `buildCreators`; a freshly
generated identifier with fixed reference id `bookid`; the source-count
meta node and, when a cover was chosen, the cover meta node. -/
def buildPackage (vols : List Volume) (manifest : Manifest) (spine : Spine)
    (opts : MergeOptions) (coverID : String) (randOk : Bool) (B : Bytes16) :
    PackageDocument :=
  let title := opts.Title
  let title :=
    if title = "" then
      match vols with
      | v :: _ =>
        match v.PackageDoc.Metadata.Titles with
        | t0 :: _ => t0.Value
        | [] => v.DisplayName
      | [] => title
    else title
  let title := if title = "" then "Merged EPUB" else title
  let lang := opts.Language
  let lang :=
    if lang = "" then
      match vols with
      | v :: _ =>
        match v.PackageDoc.Metadata.Languages with
        | l0 :: _ => l0.Value
        | [] => "en"
      | [] => lang
    else lang
  let lang := if lang = "" then "en" else lang
  let creators := buildCreators opts.Creators vols
  let identifier := randomURN randOk B
  let meta : Metadata :=
    { Titles := [{ Value := title }],
      Languages := [{ Value := lang }],
      Creators := creators.map fun c => { Value := c },
      Identifiers := [{ ID := "bookid", Value := identifier }],
      Meta := [{ Property := "novfmt:source-count", Value := Nat.repr vols.length }]
        ++ (if coverID ≠ "" then [{ Name := "cover", Content := coverID }] else []) }
  { XMLNS := nsOPF, XMLNSDC := nsDC, XMLNSOPF := nsOPF, Version := "3.0",
    UniqueIdentifier := "bookid", Lang := lang, Metadata := meta,
    Manifest := manifest, Spine := spine,
    PrefixDecl := "novfmt: https://novfmt.local/vocab#" }

/-! ## Archive packaging (`writeZip`, `addEPUBTree`) and the output path

`writeZip` creates the output file first (`os.Create`) and then streams
the archive into it; the model records what is visible at the output path
afterwards. -/

/-- A staged file as met by the walk of `addEPUBTree` (the `mimetype`
entry is handled separately): `none` content models an unreadable file. -/
structure StageFile where
  Rel : String := ""
  Content : Option String := some ""
deriving DecidableEq

/-- The staged tree: the `mimetype` file (or its absence/unreadability)
and the remaining files in walk order. -/
structure StageFS where
  mimetype : Option String := some "application/epub+zip"
  files : List StageFile := []
deriving DecidableEq

/-- What exists at `opts.OutPath` after `MergeEPUBs` returns. -/
inductive OutPathState where
  | absent
  | partialFile
  | complete
deriving DecidableEq

/-- The walk of `addEPUBTree` over the non-mimetype files. -/
def addEPUBTreeFiles : List StageFile → Except String (List (String × String))
  | [] => .ok []
  | f :: fs =>
    match f.Content with
    | none => .error ("read " ++ f.Rel)
    | some c =>
      match addEPUBTreeFiles fs with
      | .error e => .error e
      | .ok rest => .ok ((f.Rel, c) :: rest)

/-- Embedding of `addEPUBTree`: read and store the `mimetype` entry
first, then deflate every other file. -/
def addEPUBTree (st : StageFS) : Except String (List (String × String)) :=
  match st.mimetype with
  | none => .error "read mimetype"
  | some mt =>
    match addEPUBTreeFiles st.files with
    | .error e => .error e
    | .ok rest => .ok (("mimetype", mt) :: rest)

/-- Embedding of `writeZip`: create the output file (`createOk = false`
models `os.MkdirAll`/`os.Create` failing, leaving nothing new at the
path), then write the archive; an error from `addEPUBTree` returns with
the partially-written file still present (no removal on error). -/
def writeZip (createOk : Bool) (st : StageFS) : Except String Unit × OutPathState :=
  if !createOk then (.error "create output", .absent)
  else
    match addEPUBTree st with
    | .error e => (.error e, .partialFile)
    | .ok _ => (.ok (), .complete)

/-- Environment for the outcome skeleton of `MergeEPUBs`: `loadErr` is a
failure while loading some volume; `stageOk` collapses the staging steps
before `writeZip` (staging dir creation, per-volume payload copies, nav,
package, container and mimetype writes), all of which fail before the
output path is touched. -/
structure MergeEnv where
  loadErr : Option String := none
  stageOk : Bool := true
  createOk : Bool := true
  stage : StageFS := {}
deriving DecidableEq

/-- Outcome skeleton of `MergeEPUBs` with respect to the output path:
input validation and every stage before `writeZip` fail with the output
path untouched; `writeZip` behaves as modelled above. -/
def mergeEPUBsOutcome (sources : List String) (opts : MergeOptions)
    (env : MergeEnv) : Except String Unit × OutPathState :=
  if sources.length < 2 then (.error "need at least two input EPUB files", .absent)
  else if opts.OutPath = "" then (.error "output path is required", .absent)
  else
    match env.loadErr with
    | some e => (.error e, .absent)
    | none =>
      if !env.stageOk then (.error "stage", .absent)
      else writeZip env.createOk env.stage

/-! ## Content rewrite engine, meta scope

The implementation of `RewriteEPUB` is not among the files under `src/`
(only its tests are), so the meta scope is modelled from the spec. -/

/-- A rewrite rule: find pattern, replacement, optional selectors. -/
structure RewriteRule where
  Find : String := ""
  Replace : String := ""
  Selectors : List String := []
deriving DecidableEq

/-- Aggregate rewrite statistics. -/
structure RewriteStats where
  MatchCount : Nat := 0
  FilesChanged : Nat := 0
deriving DecidableEq

/-- Literal substring find/replace with match counting, leftmost first,
non-overlapping (the spec's conservative default for rule matching). -/
def replaceCountList (find repl : List Char) : List Char → List Char × Nat
  | [] => ([], 0)
  | c :: cs =>
    if h : find ≠ [] ∧ find.isPrefixOf (c :: cs) then
      let r := replaceCountList find repl ((c :: cs).drop find.length)
      (repl ++ r.1, r.2 + 1)
    else
      let r := replaceCountList find repl cs
      (c :: r.1, r.2)
  termination_by l => l.length
  decreasing_by
    · simp only [List.length_drop]
      have : find.length ≠ 0 := by
        intro hlen
        exact h.1 (List.eq_nil_of_length_eq_zero hlen)
      simp only [List.length_cons]
      omega
    · simp

/-- Apply one rule to one text value. -/
def applyRuleText (rule : RewriteRule) (s : String) : String × Nat :=
  let r := replaceCountList rule.Find.data rule.Replace.data s.data
  (String.mk r.1, r.2)

/-- Modelled from the spec: the meta scope of `RewriteEPUB` (whose
implementation file is not under `src/`) applies each rule to the package
metadata text fields (titles); a rule carrying selectors is skipped
without error and contributes no matches. -/
def applyRuleMeta (rule : RewriteRule) (titles : List DCMeta) :
    List DCMeta × Nat :=
  if rule.Selectors ≠ [] then (titles, 0)
  else
    let rs := titles.map fun t =>
      let r := applyRuleText rule t.Value
      ({ t with Value := r.1 }, r.2)
    (rs.map (·.1), (rs.map (·.2)).sum)

/-- Modelled from the spec: the ordered application of all rules to the
metadata titles, accumulating the match count. -/
def rewriteMetaRules : List RewriteRule → List DCMeta → List DCMeta × Nat
  | [], ts => (ts, 0)
  | r :: rs, ts =>
    let a := applyRuleMeta r ts
    let b := rewriteMetaRules rs a.1
    (b.1, a.2 + b.2)

/-- Modelled from the spec: one meta-scope rewrite pass over the package
metadata, producing the new metadata and the aggregate statistics (the
package document counts as the single changed file when any rule changed
it). -/
def rewriteMetaScope (rules : List RewriteRule) (meta : Metadata) :
    Metadata × RewriteStats :=
  let r := rewriteMetaRules rules meta.Titles
  ({ meta with Titles := r.1 },
   { MatchCount := r.2, FilesChanged := if r.1 ≠ meta.Titles then 1 else 0 })

/-! ## Spec-side definitions used to state the claims -/

/-- The claim's reading of the display-name rule: the first title in the
list whose trimmed value is non-empty. -/
def firstNonEmptyTitle (Titles : List DCMeta) : Option String :=
  (Titles.find? fun t => goTrim t.Value ≠ "").map (·.Value)

/-- Whether a token stream contains a start tag that `parseNavDocument`
would recognise as the TOC `nav` element. -/
def hasTocStart (toks : List XmlToken) : Bool :=
  toks.any fun t =>
    match t with
    | .startEl n a => n.Local == "nav" && hasTOCTypeAttr a
    | _ => false

/-- Lowercase hexadecimal digit test. -/
def isHexChar (c : Char) : Bool :=
  ("0123456789abcdef".data).contains c

/-- Split a character list at every `-`, keeping empty segments. -/
def splitDashAux : List Char → List Char → List (List Char)
  | [], acc => [acc.reverse]
  | c :: cs, acc =>
    if c = '-' then acc.reverse :: splitDashAux cs []
    else splitDashAux cs (c :: acc)

/-- The claim's shape of a random version-4 UUID URN: the `urn:uuid:`
scheme, five dashed lowercase-hex groups of widths 8-4-4-4-12, the
version nibble `4` and a variant nibble in `8`/`9`/`a`/`b`. -/
def isV4URN (s : String) : Bool :=
  (s.data.take 9 == "urn:uuid:".data) &&
  match splitDashAux (s.data.drop 9) [] with
  | [g1, g2, g3, g4, g5] =>
    (g1.length == 8) && (g2.length == 4) && (g3.length == 4) &&
    (g4.length == 4) && (g5.length == 12) &&
    (g1 ++ g2 ++ g3 ++ g4 ++ g5).all isHexChar &&
    (g3.head? == some '4') &&
    (g4.head? == some '8' || g4.head? == some '9' ||
     g4.head? == some 'a' || g4.head? == some 'b')
  | _ => false

/-- Invariant of the volume-contributed manifest entries: no entry uses
the reserved id `nav` and none carries the `nav` property token. -/
def manifestItemsOK (l : List ManifestItem) : Prop :=
  ∀ it ∈ l, it.ID ≠ "nav" ∧ hasProperty it.Properties "nav" = false

/-- Soundness of an id map with respect to a manifest item list: every
remapped id in the map names some manifest entry. -/
def idMapOK (m : List (String × String)) (l : List ManifestItem) : Prop :=
  ∀ kv ∈ m, ∃ it ∈ l, it.ID = kv.2

/-- Resolution of spine refs against a manifest item list. -/
def spineRefsOK (refs : List SpineItemRef) (l : List ManifestItem) : Prop :=
  ∀ r ∈ refs, ∃ it ∈ l, it.ID = r.IDRef

/-- Agreement of two random draws on every bit that `randomURN` does not
force (all bytes except the masked nibbles of bytes 6 and 8). -/
def maskedEq (B C : Bytes16) : Prop :=
  B.b0 = C.b0 ∧ B.b1 = C.b1 ∧ B.b2 = C.b2 ∧ B.b3 = C.b3 ∧
  B.b4 = C.b4 ∧ B.b5 = C.b5 ∧ (B.b6 &&& 15) = (C.b6 &&& 15) ∧ B.b7 = C.b7 ∧
  (B.b8 &&& 63) = (C.b8 &&& 63) ∧ B.b9 = C.b9 ∧ B.b10 = C.b10 ∧
  B.b11 = C.b11 ∧ B.b12 = C.b12 ∧ B.b13 = C.b13 ∧ B.b14 = C.b14 ∧
  B.b15 = C.b15

/-! ## Supporting lemmas about the string helpers -/

theorem fieldsAux_all_nonws (w : List Char) (acc : List Char)
    (h : ∀ c ∈ w, c.isWhitespace = false) :
    fieldsAux w acc = if acc = [] ∧ w = [] then [] else [acc.reverse ++ w] := by
  induction w generalizing acc with
  | nil => cases acc <;> simp [fieldsAux]
  | cons c cs ih =>
    have hc : c.isWhitespace = false := h c (by simp)
    rw [show fieldsAux (c :: cs) acc = fieldsAux cs (c :: acc) by simp [fieldsAux, hc]]
    rw [ih (c :: acc) (fun d hd => h d (by simp [hd]))]
    simp

theorem fieldsAux_append_word (w : List Char) (hw : w ≠ [])
    (hnw : ∀ c ∈ w, c.isWhitespace = false) (p acc : List Char) :
    fieldsAux (p ++ ' ' :: w) acc = fieldsAux p acc ++ [w] := by
  induction p generalizing acc with
  | nil =>
    have hsp : (' ').isWhitespace = true := by decide
    have hin : fieldsAux w [] = [w] := by
      rw [fieldsAux_all_nonws w [] hnw]; simp [hw]
    cases acc <;> simp [fieldsAux, hsp, hin]
  | cons c p ih =>
    by_cases hc : c.isWhitespace = true
    · simp only [List.cons_append, fieldsAux, hc, if_true, List.append_eq, ih []]
      by_cases hacc : acc.isEmpty = true <;> simp [hacc]
    · have hc' : c.isWhitespace = false := by simp_all
      simp only [List.cons_append, fieldsAux, hc', Bool.false_eq_true, if_false]
      exact ih (c :: acc)

theorem goFields_append_cover (p : String) :
    goFields (p ++ " cover-image") = goFields p ++ ["cover-image"] := by
  unfold goFields
  have hd : (p ++ " cover-image").data = p.data ++ ' ' :: "cover-image".data := by
    rw [String.data_append]
  rw [hd, fieldsAux_append_word "cover-image".data (by decide) (by decide)]
  simp

theorem fieldsAux_all_ws (l : List Char) (h : ∀ c ∈ l, c.isWhitespace = true) :
    fieldsAux l [] = [] := by
  induction l with
  | nil => rfl
  | cons c cs ih =>
    have hc : c.isWhitespace = true := h c (by simp)
    simp [fieldsAux, hc, ih (fun d hd => h d (by simp [hd]))]

theorem trimList_nil_all_ws (l : List Char) (h : trimList l = []) :
    ∀ c ∈ l, c.isWhitespace = true := by
  unfold trimList at h
  have h1 : (l.dropWhile Char.isWhitespace).reverse.dropWhile Char.isWhitespace = [] := by
    simpa using h
  rw [List.dropWhile_eq_nil_iff] at h1
  have h2 : ∀ c ∈ l.dropWhile Char.isWhitespace, c.isWhitespace = true := by
    intro c hc
    exact h1 c (List.mem_reverse.mpr hc)
  intro c hc
  rw [← List.takeWhile_append_dropWhile (p := Char.isWhitespace) (l := l)] at hc
  rcases List.mem_append.mp hc with h3 | h3
  · exact List.mem_takeWhile_imp h3
  · exact h2 c h3

theorem goFields_of_trim_nil (p : String) (h : goTrim p = "") : goFields p = [] := by
  have hdata : trimList p.data = [] := by
    have := congrArg String.data h
    simpa [goTrim] using this
  unfold goFields
  rw [fieldsAux_all_ws p.data (trimList_nil_all_ws p.data hdata)]
  rfl

theorem hasProperty_append_cover (p : String) :
    hasProperty (p ++ " " ++ "cover-image") "nav" = hasProperty p "nav" := by
  unfold hasProperty
  rw [String.append_assoc, show (" " : String) ++ "cover-image" = " cover-image" from rfl,
    goFields_append_cover]
  simp [List.contains_eq_any_beq, List.any_append]

theorem hasProperty_addProperty_cover (p : String) :
    hasProperty (addProperty p "cover-image") "nav" = hasProperty p "nav" := by
  unfold addProperty
  split
  · rfl
  · split
    · rfl
    · split
      · rename_i hne hnp htrim
        have h1 : hasProperty "cover-image" "nav" = false := by decide
        have h2 : hasProperty p "nav" = false := by
          unfold hasProperty
          rw [goFields_of_trim_nil p htrim]
          rfl
        rw [h1, h2]
      · exact hasProperty_append_cover p

theorem remapID_ne_nav (idx : Nat) (id : String) : remapID idx id ≠ "nav" := by
  intro h
  have hd := congrArg String.data h
  rw [remapID] at hd
  simp only [String.data_append] at hd
  simp at hd

theorem lookupAssoc_mem {m : List (String × String)} {k v : String}
    (h : lookupAssoc m k = some v) : (k, v) ∈ m := by
  unfold lookupAssoc at h
  cases hf : m.find? (fun p => p.1 = k) with
  | none => simp [hf] at h
  | some p =>
    simp only [hf, Option.map_some'] at h
    have hmem := List.mem_of_find?_eq_some hf
    have hp := List.find?_some hf
    simp only [decide_eq_true_eq] at hp
    cases p
    simp_all

theorem splitFirstCh_cons_ne (sep c : Char) (cs : List Char) (h : ¬c = sep) :
    splitFirstCh sep (c :: cs) =
      (c :: (splitFirstCh sep cs).1, (splitFirstCh sep cs).2) := by
  simp [splitFirstCh, h]

/-! ## Claim C9: `joinHref` -/

/-- C9, counterexample: the claim says an href that starts with `#` is
returned unchanged, but `joinHref` trims surrounding whitespace first, so
`"#frag "` (which starts with `#`) comes back as `"#frag"`, not
unchanged. -/
theorem claim9_counterexample :
    ("#frag " : String).data.head? = some '#' ∧
    joinHref "Volumes/v0001" "#frag " = "#frag" ∧
    ("#frag" : String) ≠ "#frag " := by
  refine ⟨rfl, by decide, by decide⟩

/-- C9, amended: `joinHref` first trims the href.  A trimmed-empty href
yields the empty string; a trimmed href that starts with `#` or contains
`://` is returned (trimmed) unchanged; every other href is split at its
first `#`, the part before it is joined with the prefix and
path-normalized, and the fragment suffix is preserved. -/
theorem claim9_joinHref_amended (pre href : String) :
    (goTrim href = "" → joinHref pre href = "") ∧
    (goTrim href ≠ "" →
      ((goTrim href).data.head? = some '#' ∨
        containsList "://".data (goTrim href).data = true) →
      joinHref pre href = goTrim href) ∧
    (goTrim href ≠ "" →
      (goTrim href).data.head? ≠ some '#' →
      containsList "://".data (goTrim href).data = false →
      joinHref pre href =
        match (splitFirstCh '#' (goTrim href).data).2 with
        | some frag =>
          normalizeEPUBPath
              (pathJoin pre (String.mk (splitFirstCh '#' (goTrim href).data).1)) ++
            "#" ++ String.mk frag
        | none =>
          normalizeEPUBPath
            (pathJoin pre (String.mk (splitFirstCh '#' (goTrim href).data).1))) := by
  refine ⟨?_, ?_, ?_⟩
  · intro h
    simp [joinHref, h]
  · intro h1 h2
    have hcond : ((goTrim href).data.head? = some '#' || containsList "://".data (goTrim href).data) = true := by
      rcases h2 with h2 | h2 <;> simp [h2]
    simp [joinHref, h1, hcond]
  · intro h1 h2 h3
    cases hdata : (goTrim href).data with
    | nil =>
      exact absurd (String.ext hdata) h1
    | cons c cs =>
      have hc : ¬c = '#' := by
        intro hc
        rw [hdata, hc] at h2
        exact h2 rfl
      have hc3 : containsList "://".data (c :: cs) = false := hdata ▸ h3
      have hsplit := splitFirstCh_cons_ne '#' c cs hc
      have hcond : (decide ((c :: cs).head? = some '#') ||
          containsList "://".data (c :: cs)) = false := by
        simp [hc, hc3]
      have hbase : String.mk (c :: (splitFirstCh '#' cs).1) ≠ "" := by
        intro hb
        have := congrArg String.data hb
        simp at this
      simp only [joinHref, if_neg h1, hdata, hcond, Bool.false_eq_true, if_false, hsplit]
      cases hrest : (splitFirstCh '#' cs).2 with
      | some frag => simp [hbase]
      | none => simp

/-- C9, witness: the amended theorem applied to the spec's concrete
examples. -/
theorem claim9_witness :
    joinHref "Volumes/v0001" "chapter.xhtml" = "Volumes/v0001/chapter.xhtml" ∧
    joinHref "Volumes/v0001" "chapter.xhtml#s1" = "Volumes/v0001/chapter.xhtml#s1" ∧
    joinHref "Volumes/v0001" "#frag" = "#frag" ∧
    joinHref "Volumes/v0001" "https://example.com/foo" = "https://example.com/foo" := by
  refine ⟨?_, ?_, ?_, ?_⟩
  · exact ((claim9_joinHref_amended "Volumes/v0001" "chapter.xhtml").2.2
      (by decide) (by decide) (by decide)).trans (by decide)
  · exact ((claim9_joinHref_amended "Volumes/v0001" "chapter.xhtml#s1").2.2
      (by decide) (by decide) (by decide)).trans (by decide)
  · exact ((claim9_joinHref_amended "Volumes/v0001" "#frag").2.1
      (by decide) (Or.inl (by decide))).trans (by decide)
  · exact ((claim9_joinHref_amended "Volumes/v0001" "https://example.com/foo").2.1
      (by decide) (Or.inr (by decide))).trans (by decide)

/-! ## Claim C8: display-name assignment in `loadVolume` -/

/-- C8, counterexample: the claim says the display name comes from the
first non-empty title; but when the first title is blank the code falls
back to `Volume N` even though a later title (`"Real"`) is non-empty. -/
theorem claim8_counterexample :
    displayName 0 [{ Value := " " }, { Value := "Real" }] = "Volume 1" ∧
    firstNonEmptyTitle [{ Value := " " }, { Value := "Real" }] = some "Real" ∧
    ("Volume 1" : String) ≠ "Real" := by
  refine ⟨by decide, by decide, by decide⟩

/-- C8, amended: `loadVolume` consults only the first title: the display
name is the first title when its trimmed value is non-blank, and the
positional fallback `Volume N` (N the 1-based index) otherwise — later
titles are never consulted.  The last conjunct ties the standalone
function to the `loadVolume` pipeline. -/
theorem claim8_display_name_amended :
    (∀ idx (t : DCMeta) rest, goTrim t.Value ≠ "" →
      displayName idx (t :: rest) = t.Value) ∧
    (∀ idx (t : DCMeta) rest, goTrim t.Value = "" →
      displayName idx (t :: rest) = "Volume " ++ Nat.repr (idx + 1)) ∧
    (∀ idx, displayName idx [] = "Volume " ++ Nat.repr (idx + 1)) ∧
    (∀ idx source tmpDir env vol,
      (loadVolume idx source tmpDir env).result = .ok vol →
      vol.DisplayName = displayName idx vol.PackageDoc.Metadata.Titles) := by
  refine ⟨?_, ?_, ?_, ?_⟩
  · intro idx t rest h
    simp [displayName, h]
  · intro idx t rest h
    simp [displayName, h]
  · intro idx
    rfl
  · intro idx source tmpDir env vol
    unfold loadVolume
    cases unzip tmpDir env.entries with
    | error e => intro h; exact absurd h (by simp)
    | ok u =>
      dsimp only
      cases env.containerDoc with
      | none => intro h; exact absurd h (by simp)
      | some root =>
        dsimp only
        cases root.Rootfiles with
        | nil => intro h; exact absurd h (by simp)
        | cons rf rfs =>
          dsimp only
          cases env.pkgDoc with
          | none => intro h; exact absurd h (by simp)
          | some pkg =>
            dsimp only
            by_cases hnav : detectNavHref pkg ≠ ""
            · cases env.navDoc with
              | none =>
                simp only [if_pos hnav]
                intro h; exact absurd h (by simp)
              | some toks =>
                simp only [if_pos hnav]
                cases parseNavDocument toks with
                | error e => intro h; exact absurd h (by simp)
                | ok items =>
                  intro h
                  simp only [Except.ok.injEq] at h
                  subst h
                  rfl
            · simp only [if_neg hnav]
              intro h
              simp only [Except.ok.injEq] at h
              subst h
              rfl

/-! ## Claim C2: creators in `buildPackage` -/

theorem buildPackage_creators (vols : List Volume) (manifest : Manifest)
    (spine : Spine) (opts : MergeOptions) (coverID : String) (randOk : Bool)
    (B : Bytes16) :
    (buildPackage vols manifest spine opts coverID randOk B).Metadata.Creators.map
        (fun c => c.Value) =
      buildCreators opts.Creators vols := by
  have hid : ((fun c => c.Value) ∘ fun c => ({ ID := "", Value := c } : DCMeta)) =
      fun c => c := funext fun c => rfl
  simp only [buildPackage, List.map_map, hid, List.map_id]
  simp

/-- C2, counterexample: with the override list `["B", "A"]` the merged
creators come back sorted as `["A", "B"]`, not verbatim in the given
order — `buildPackage` applies `sort.Strings` unconditionally, also to
the override list. -/
theorem claim2_counterexample :
    (buildPackage [] {} {} { Creators := ["B", "A"] } "" true {}).Metadata.Creators.map
        (fun c => c.Value) = ["A", "B"] ∧
    (["A", "B"] : List String) ≠ ["B", "A"] := by
  exact ⟨by decide, by decide⟩

/-- C2, amended: a non-empty creator override list is used without
deduplication or trimming, but it is sorted lexicographically (not kept
in the given order); otherwise the creators are the deduplicated (by
trimmed value) union of the volumes' creators, sorted, defaulting to the
placeholder `Unknown` when the union is empty. -/
theorem claim2_creators_amended :
    (∀ (opts : MergeOptions) vols manifest spine coverID randOk B,
      opts.Creators ≠ [] →
      ((buildPackage vols manifest spine opts coverID randOk B).Metadata.Creators.map
          (fun c => c.Value)).Perm opts.Creators ∧
      List.Sorted (· ≤ ·)
        ((buildPackage vols manifest spine opts coverID randOk B).Metadata.Creators.map
          (fun c => c.Value))) ∧
    (∀ (opts : MergeOptions) vols manifest spine coverID randOk B,
      opts.Creators = [] →
      (buildPackage vols manifest spine opts coverID randOk B).Metadata.Creators.map
          (fun c => c.Value) =
        (if dedupTrim (vols.flatMap fun v =>
              v.PackageDoc.Metadata.Creators.map (·.Value)) [] = [] then
          ["Unknown"]
        else
          sortStrings (dedupTrim (vols.flatMap fun v =>
            v.PackageDoc.Metadata.Creators.map (·.Value)) []))) := by
  constructor
  · intro opts vols manifest spine coverID randOk B h
    rw [buildPackage_creators]
    have hb : buildCreators opts.Creators vols = sortStrings opts.Creators := by
      simp [buildCreators, h]
    rw [hb]
    exact ⟨@List.perm_insertionSort String (· ≤ ·) decLeString opts.Creators,
      @List.sorted_insertionSort String (· ≤ ·) decLeString _ _ opts.Creators⟩
  · intro opts vols manifest spine coverID randOk B h
    rw [buildPackage_creators, h]
    by_cases hu : dedupTrim (vols.flatMap fun v =>
        v.PackageDoc.Metadata.Creators.map (·.Value)) [] = []
    · rw [if_pos hu]
      simp [buildCreators, hu]
      decide
    · rw [if_neg hu]
      simp [buildCreators, hu]

/-- C2, witness: the amended theorem applied to the override list
`["B", "A"]`. -/
theorem claim2_witness :
    ((buildPackage [] {} {} { Creators := ["B", "A"] } "" true {}).Metadata.Creators.map
        (fun c => c.Value)).Perm ["B", "A"] ∧
    List.Sorted (· ≤ ·)
      ((buildPackage [] {} {} { Creators := ["B", "A"] } "" true {}).Metadata.Creators.map
        (fun c => c.Value)) :=
  claim2_creators_amended.1 { Creators := ["B", "A"] } [] {} {} "" true {} (by decide)

/-! ## Claim C7: selector rules are inert in meta scope -/

/-- C7: under meta scope a rule carrying selectors contributes zero
matches and no metadata change (it is skipped without error), so the
whole pass gives the same result as with those rules removed. -/
theorem claim7_meta_selectors_inert :
    (∀ (rule : RewriteRule) (titles : List DCMeta), rule.Selectors ≠ [] →
      applyRuleMeta rule titles = (titles, 0)) ∧
    (∀ (rules : List RewriteRule) (meta : Metadata),
      rewriteMetaScope rules meta =
        rewriteMetaScope (rules.filter fun r => r.Selectors.isEmpty) meta) := by
  constructor
  · intro rule titles h
    simp [applyRuleMeta, h]
  · intro rules meta
    unfold rewriteMetaScope
    suffices h : rewriteMetaRules rules meta.Titles =
        rewriteMetaRules (rules.filter fun r => r.Selectors.isEmpty) meta.Titles by
      rw [h]
    generalize meta.Titles = ts
    induction rules generalizing ts with
    | nil => rfl
    | cons r rs ih =>
      by_cases h : r.Selectors = []
      · have hemp : r.Selectors.isEmpty = true := by simp [h]
        simp only [rewriteMetaRules, List.filter_cons, hemp, if_true]
        rw [ih]
      · have hemp : r.Selectors.isEmpty = false := by simp [h]
        have hskip : applyRuleMeta r ts = (ts, 0) := by simp [applyRuleMeta, h]
        simp only [rewriteMetaRules, List.filter_cons, hemp, hskip, Bool.false_eq_true,
          if_false]
        rw [ih]
        simp

/-- C7, witness: a selector-carrying rule applied to concrete metadata
titles changes nothing and counts zero matches. -/
theorem claim7_witness :
    applyRuleMeta { Find := "Foo", Replace := "Bar", Selectors := ["p.note"] }
        [{ Value := "Foo Title" }] = ([{ Value := "Foo Title" }], 0) :=
  claim7_meta_selectors_inert.1 _ _ (by decide)

/-! ## Claim C5: state of the output path on failure -/

/-- C5, counterexample: a failure inside archive writing (here: the
staged `mimetype` file is unreadable) leaves a partially-written file at
the output path — neither a complete archive nor nothing. -/
theorem claim5_counterexample :
    mergeEPUBsOutcome ["a.epub", "b.epub"] { OutPath := "out.epub" }
        { stage := { mimetype := none } } =
      (.error "read mimetype", .partialFile) ∧
    OutPathState.partialFile ≠ OutPathState.absent ∧
    OutPathState.partialFile ≠ OutPathState.complete := by
  exact ⟨rfl, by decide, by decide⟩

/-- C5, amended: failures before archive writing (input validation,
volume loading, staging) leave nothing at the output path, and a
successful merge leaves a complete archive; but a failure during archive
writing, after the output file has been created, leaves the
partially-written file visible at the output path (it is not removed on
error). -/
theorem claim5_output_state_amended :
    (∀ sources (opts : MergeOptions) (env : MergeEnv),
      sources.length < 2 ∨ opts.OutPath = "" ∨ (∃ e, env.loadErr = some e) ∨
        env.stageOk = false ∨ env.createOk = false →
      (mergeEPUBsOutcome sources opts env).2 = .absent) ∧
    (∀ sources (opts : MergeOptions) (env : MergeEnv) e,
      2 ≤ sources.length → opts.OutPath ≠ "" → env.loadErr = none →
      env.stageOk = true → env.createOk = true →
      (mergeEPUBsOutcome sources opts env).1 = .error e →
      (mergeEPUBsOutcome sources opts env).2 = .partialFile) ∧
    (∀ sources (opts : MergeOptions) (env : MergeEnv),
      (mergeEPUBsOutcome sources opts env).1 = .ok () →
      (mergeEPUBsOutcome sources opts env).2 = .complete) := by
  refine ⟨?_, ?_, ?_⟩
  · intro sources opts env h
    unfold mergeEPUBsOutcome
    by_cases h1 : sources.length < 2
    · simp [h1]
    · rw [if_neg h1]
      by_cases h2 : opts.OutPath = ""
      · simp [h2]
      · rw [if_neg h2]
        cases hl : env.loadErr with
        | some e => rfl
        | none =>
          have h5 : env.stageOk = false ∨ env.createOk = false := by
            rcases h with h | h | ⟨e, h⟩ | h | h
            · exact absurd h h1
            · exact absurd h h2
            · rw [h] at hl; cases hl
            · exact Or.inl h
            · exact Or.inr h
          rcases h5 with h5 | h5
          · simp [h5]
          · by_cases hs : env.stageOk = true
            · simp [hs, writeZip, h5]
            · simp only [Bool.not_eq_true] at hs
              simp [hs]
  · intro sources opts env e h1 h2 h3 h4 h5 herr
    unfold mergeEPUBsOutcome at herr ⊢
    rw [if_neg (by omega)] at herr ⊢
    rw [if_neg h2] at herr ⊢
    rw [h3] at herr ⊢
    simp only [h4, Bool.not_true, Bool.false_eq_true, if_false] at herr ⊢
    unfold writeZip at herr ⊢
    rw [h5] at herr ⊢
    simp only [Bool.not_true, Bool.false_eq_true, if_false] at herr ⊢
    cases haz : addEPUBTree env.stage with
    | error e2 => rfl
    | ok entries => rw [haz] at herr; simp at herr
  · intro sources opts env hok
    unfold mergeEPUBsOutcome at hok ⊢
    by_cases h1 : sources.length < 2
    · rw [if_pos h1] at hok
      exact absurd hok (by simp)
    · rw [if_neg h1] at hok ⊢
      by_cases h2 : opts.OutPath = ""
      · rw [if_pos h2] at hok
        exact absurd hok (by simp)
      · rw [if_neg h2] at hok ⊢
        cases hl : env.loadErr with
        | some e =>
          rw [hl] at hok
          exact absurd hok (by simp)
        | none =>
          rw [hl] at hok
          by_cases hs : env.stageOk = true
          · simp only [hs, Bool.not_true, Bool.false_eq_true, if_false] at hok ⊢
            unfold writeZip at hok ⊢
            by_cases hc : env.createOk = true
            · simp only [hc, Bool.not_true, Bool.false_eq_true, if_false] at hok ⊢
              cases haz : addEPUBTree env.stage with
              | error e2 =>
                rw [haz] at hok
                exact absurd hok (by simp)
              | ok entries => rfl
            · simp only [Bool.not_eq_true] at hc
              rw [hc] at hok
              exact absurd hok (by simp)
          · simp only [Bool.not_eq_true] at hs
            rw [hs] at hok
            exact absurd hok (by simp)

/-- C5, witness: the second part of the amended theorem applied to the
concrete missing-mimetype staging failure. -/
theorem claim5_witness :
    (mergeEPUBsOutcome ["a.epub", "b.epub"] { OutPath := "out.epub" }
      { stage := { mimetype := none } }).2 = .partialFile :=
  claim5_output_state_amended.2.1 ["a.epub", "b.epub"] { OutPath := "out.epub" }
    { stage := { mimetype := none } } "read mimetype"
    (by decide) (by decide) rfl rfl rfl rfl

/-! ## Claim C4: path traversal in `unzip` -/

/-- C4: the traversal guard is a plain string-prefix test on the cleaned
target, so an ordinary `..` escape is rejected (and `loadVolume` releases
the temp directory), but an entry escaping to a sibling directory whose
path shares the destination as a string prefix (`/tmp/vol` vs
`/tmp/vol-evil`) passes the guard even though its target lies outside the
destination — the claim's "rejected unconditionally" fails on this
input. -/
theorem claim4_zip_slip_failing_input :
    unzipEntries "/tmp/vol" [{ Name := "../vol-evil/payload" }] = .ok () ∧
    entryTarget "/tmp/vol" "../vol-evil/payload" = "/tmp/vol-evil/payload" ∧
    insideDest "/tmp/vol" (entryTarget "/tmp/vol" "../vol-evil/payload") = false ∧
    unzipEntries "/tmp/vol" [{ Name := "../../etc/passwd" }] =
      .error "zip entry ../../etc/passwd escapes destination" ∧
    (loadVolume 0 "evil.epub" "/tmp/vol"
        { entries := some [{ Name := "../../etc/passwd" }] }).result =
      .error "extract evil.epub: zip entry ../../etc/passwd escapes destination" ∧
    (loadVolume 0 "evil.epub" "/tmp/vol"
        { entries := some [{ Name := "../../etc/passwd" }] }).tempReleased = true := by
  refine ⟨rfl, by decide, by decide, rfl, rfl, rfl⟩

/-- C8, witness: the amended display-name rule at concrete inputs. -/
theorem claim8_witness :
    displayName 2 [{ Value := "Source Title" }] = "Source Title" ∧
    displayName 0 [{ Value := "  " }] = "Volume 1" :=
  ⟨claim8_display_name_amended.1 2 { Value := "Source Title" } [] (by decide),
   claim8_display_name_amended.2.1 0 { Value := "  " } [] (by decide)⟩

/-! ## Claim C3: error behaviour of `parseNavDocument` -/

theorem navStep_inactive (t : XmlToken) (st : NavParseState)
    (hin : st.inTOC = false)
    (ht : ∀ name attrs, t = .startEl name attrs →
      ¬(name.Local = "nav" ∧ hasTOCTypeAttr attrs = true)) :
    navStep t st = .inr st := by
  cases t with
  | startEl name attrs =>
    by_cases hn : name.Local = "nav"
    · have htoc : hasTOCTypeAttr attrs = false := by
        by_contra hh
        exact ht name attrs rfl ⟨hn, by simpa using hh⟩
      simp [navStep, hn, hin, htoc]
    · simp [navStep, hn, hin]
  | endEl name =>
    by_cases hn : name.Local = "nav" <;> simp [navStep, hn, hin]
  | charData s => simp [navStep, hin]

theorem parseNavLoop_no_toc (toks : List XmlToken) (st : NavParseState)
    (htoc : hasTocStart toks = false) (hin : st.inTOC = false)
    (hit : st.items = []) :
    parseNavLoop toks st = .error "toc nav not found" := by
  induction toks generalizing st with
  | nil => simp [parseNavLoop, hit]
  | cons t ts ih =>
    have hts : hasTocStart ts = false := by
      rcases t with ⟨n, a⟩ | n | str <;>
        · simp only [hasTocStart, List.any_cons, Bool.or_eq_false_iff] at htoc
          simp only [hasTocStart]
          exact htoc.2
    have ht : ∀ name attrs, t = .startEl name attrs →
        ¬(name.Local = "nav" ∧ hasTOCTypeAttr attrs = true) := by
      intro name attrs he hcon
      subst he
      simp [hasTocStart, hcon.1, hcon.2] at htoc
    have hstep := navStep_inactive t st hin ht
    simp only [parseNavLoop, hstep]
    exact ih st hts hin hit

/-- C3, counterexample: a document whose TOC `nav` element is located but
whose subtree is empty does not produce a "not found" error — the parser
returns a non-error result with zero items when the element closes. -/
theorem claim3_counterexample :
    hasTocStart [XmlToken.startEl { Local := "nav" }
        [{ Name := { Local := "type" }, Value := "toc" }],
      XmlToken.endEl { Local := "nav" }] = true ∧
    parseNavDocument [XmlToken.startEl { Local := "nav" }
        [{ Name := { Local := "type" }, Value := "toc" }],
      XmlToken.endEl { Local := "nav" }] = .ok [] := by
  exact ⟨by decide, rfl⟩

/-- C3, amended: `parseNavDocument` returns the "not found" error for
every input in which no TOC-typed `nav` start tag occurs; but once the
TOC `nav` element is located, reaching its end tag returns the
accumulated items without error even when the subtree produced no items
(an empty TOC subtree yields a non-error empty result, not an error). -/
theorem claim3_nav_error_amended :
    (∀ toks, hasTocStart toks = false →
      parseNavDocument toks = .error "toc nav not found") ∧
    parseNavDocument [XmlToken.startEl { Local := "nav" }
        [{ Name := { Local := "type" }, Value := "toc" }],
      XmlToken.endEl { Local := "nav" }] = .ok [] := by
  constructor
  · intro toks h
    exact parseNavLoop_no_toc toks {} h rfl rfl
  · rfl

/-- C3, witness: the amended theorem at a concrete nav-free document. -/
theorem claim3_witness :
    parseNavDocument [XmlToken.startEl { Local := "html" } [],
      XmlToken.endEl { Local := "html" }] = .error "toc nav not found" :=
  claim3_nav_error_amended.1 _ (by decide)

/-! ## Claim C10: nav-parse failures in `loadVolume` -/

/-- C10, counterexample: a volume whose manifest carries a nav-tagged
item (so `detectNavHref` is non-empty) still loads successfully with an
empty `NavItems` when the nav document's TOC element is present but
empty, contradicting "only a volume with no nav-tagged manifest item at
all loads successfully with empty NavItems". -/
theorem claim10_counterexample :
    detectNavHref { Manifest := { Items :=
        [{ ID := "n", Href := "nav.xhtml", Properties := "nav" }] } } = "nav.xhtml" ∧
    ((loadVolume 0 "v1.epub" "/tmp/v"
        { entries := some [],
          containerDoc := some { Rootfiles := [{ FullPath := "OEBPS/content.opf" }] },
          pkgDoc := some { Manifest := { Items :=
            [{ ID := "n", Href := "nav.xhtml", Properties := "nav" }] } },
          navDoc := some [XmlToken.startEl { Local := "nav" }
              [{ Name := { Local := "type" }, Value := "toc" }],
            XmlToken.endEl { Local := "nav" }] }).result.map
        fun v => (v.NavHref, v.NavItems.length)) = .ok ("nav.xhtml", 0) ∧
    (loadVolume 0 "v1.epub" "/tmp/v"
        { entries := some [],
          containerDoc := some { Rootfiles := [{ FullPath := "OEBPS/content.opf" }] },
          pkgDoc := some { Manifest := { Items :=
            [{ ID := "n", Href := "nav.xhtml", Properties := "nav" }] } },
          navDoc := some [XmlToken.startEl { Local := "nav" }
              [{ Name := { Local := "type" }, Value := "toc" }],
            XmlToken.endEl { Local := "nav" }] }).tempReleased = false := by
  exact ⟨rfl, rfl, rfl⟩

/-- C10, amended: every failing `loadVolume` releases the temp directory;
when the first nav-tagged manifest item yields a non-empty href and the
nav document cannot be read or fails to parse, the whole volume load
fails (with the temp directory released); a volume loads with empty
`NavItems` when it has no nav-tagged item (or an empty nav href), and a
volume whose nav document parses successfully loads with exactly the
parsed items — which are empty for an empty but well-closed TOC
subtree. -/
theorem claim10_nav_failure_amended :
    (∀ idx source tmpDir (env : LoadEnv) e,
      (loadVolume idx source tmpDir env).result = .error e →
      (loadVolume idx source tmpDir env).tempReleased = true) ∧
    (∀ idx source tmpDir (env : LoadEnv) root rf rfs pkg,
      unzip tmpDir env.entries = .ok () →
      env.containerDoc = some root → root.Rootfiles = rf :: rfs →
      env.pkgDoc = some pkg → detectNavHref pkg ≠ "" →
      (env.navDoc = none ∨
        (∃ toks e, env.navDoc = some toks ∧ parseNavDocument toks = .error e)) →
      (loadVolume idx source tmpDir env).result.isOk = false ∧
      (loadVolume idx source tmpDir env).tempReleased = true) ∧
    (∀ idx source tmpDir (env : LoadEnv) root rf rfs pkg,
      unzip tmpDir env.entries = .ok () →
      env.containerDoc = some root → root.Rootfiles = rf :: rfs →
      env.pkgDoc = some pkg → detectNavHref pkg = "" →
      ((loadVolume idx source tmpDir env).result.map fun v => v.NavItems) =
        .ok []) ∧
    (∀ idx source tmpDir (env : LoadEnv) root rf rfs pkg toks items,
      unzip tmpDir env.entries = .ok () →
      env.containerDoc = some root → root.Rootfiles = rf :: rfs →
      env.pkgDoc = some pkg → detectNavHref pkg ≠ "" →
      env.navDoc = some toks → parseNavDocument toks = .ok items →
      ((loadVolume idx source tmpDir env).result.map fun v => v.NavItems) =
        .ok items) := by
  refine ⟨?_, ?_, ?_, ?_⟩
  · intro idx source tmpDir env e
    unfold loadVolume
    cases unzip tmpDir env.entries with
    | error e2 => intro h; trivial
    | ok u =>
      dsimp only
      cases env.containerDoc with
      | none => intro h; trivial
      | some root =>
        dsimp only
        cases root.Rootfiles with
        | nil => intro h; trivial
        | cons rf rfs =>
          dsimp only
          cases env.pkgDoc with
          | none => intro h; trivial
          | some pkg =>
            dsimp only
            by_cases hnav : detectNavHref pkg ≠ ""
            · cases env.navDoc with
              | none =>
                simp only [if_pos hnav]
                intro h; trivial
              | some toks =>
                simp only [if_pos hnav]
                cases parseNavDocument toks with
                | error e2 => intro h; trivial
                | ok items => intro h; exact absurd h (by simp)
            · simp only [if_neg hnav]
              intro h; exact absurd h (by simp)
  · intro idx source tmpDir env root rf rfs pkg hz hc hr hp hnav hfail
    unfold loadVolume
    rw [hz]
    dsimp only
    rw [hc]
    dsimp only
    rw [hr]
    dsimp only
    rw [hp]
    dsimp only
    rcases hfail with hfail | ⟨toks, e, hdoc, herr⟩
    · rw [hfail]
      simp only [if_pos hnav]
      exact ⟨rfl, trivial⟩
    · rw [hdoc]
      simp only [if_pos hnav, herr]
      exact ⟨rfl, trivial⟩
  · intro idx source tmpDir env root rf rfs pkg hz hc hr hp hnav
    unfold loadVolume
    rw [hz]
    dsimp only
    rw [hc]
    dsimp only
    rw [hr]
    dsimp only
    rw [hp]
    dsimp only
    rw [if_neg (by simp [hnav])]
    rfl
  · intro idx source tmpDir env root rf rfs pkg toks items hz hc hr hp hnav hdoc hparse
    unfold loadVolume
    rw [hz]
    dsimp only
    rw [hc]
    dsimp only
    rw [hr]
    dsimp only
    rw [hp]
    dsimp only
    rw [hdoc]
    rw [if_pos hnav]
    dsimp only
    rw [hparse]
    rfl

/-- C10, witness: the failure part of the amended theorem at a concrete
volume whose nav document is unreadable. -/
theorem claim10_witness :
    (loadVolume 0 "v.epub" "/tmp/v"
        { entries := some [],
          containerDoc := some { Rootfiles := [{ FullPath := "OEBPS/content.opf" }] },
          pkgDoc := some { Manifest := { Items :=
            [{ ID := "n", Href := "nav.xhtml", Properties := "nav" }] } },
          navDoc := none }).result.isOk = false ∧
    (loadVolume 0 "v.epub" "/tmp/v"
        { entries := some [],
          containerDoc := some { Rootfiles := [{ FullPath := "OEBPS/content.opf" }] },
          pkgDoc := some { Manifest := { Items :=
            [{ ID := "n", Href := "nav.xhtml", Properties := "nav" }] } },
          navDoc := none }).tempReleased = true :=
  claim10_nav_failure_amended.2.1 0 "v.epub" "/tmp/v"
    { entries := some [],
      containerDoc := some { Rootfiles := [{ FullPath := "OEBPS/content.opf" }] },
      pkgDoc := some { Manifest := { Items :=
        [{ ID := "n", Href := "nav.xhtml", Properties := "nav" }] } },
      navDoc := none }
    { Rootfiles := [{ FullPath := "OEBPS/content.opf" }] }
    { FullPath := "OEBPS/content.opf" } []
    { Manifest := { Items := [{ ID := "n", Href := "nav.xhtml", Properties := "nav" }] } }
    rfl rfl rfl rfl (by decide) (Or.inl rfl)

/-! ## Claim C1: merge-engine structural lemmas -/

theorem processItem_skip (idx : Nat) (vc : String) (acc : MergeAcc)
    (m : List (String × String)) (item : ManifestItem)
    (h : hasProperty item.Properties "nav" = true) :
    processItem idx vc acc m item = (acc, m) := by
  simp [processItem, h]

theorem processItem_refs (idx : Nat) (vc : String) (acc : MergeAcc)
    (m : List (String × String)) (item : ManifestItem) :
    (processItem idx vc acc m item).1.refs = acc.refs := by
  unfold processItem
  split
  · rfl
  · rfl

theorem processItem_items_eq (idx : Nat) (vc : String) (acc : MergeAcc)
    (m : List (String × String)) (item : ManifestItem)
    (h : hasProperty item.Properties "nav" = false) :
    ∃ entry, (processItem idx vc acc m item).1.items = acc.items ++ [entry] ∧
      (processItem idx vc acc m item).2 = (item.ID, remapID idx item.ID) :: m ∧
      entry.ID = remapID idx item.ID ∧
      hasProperty entry.Properties "nav" = false := by
  unfold processItem
  rw [if_neg (by simp [h])]
  refine ⟨_, rfl, rfl, ?_, ?_⟩
  · split
    · rfl
    · rfl
  · split
    · show hasProperty (addProperty item.Properties "cover-image") "nav" = false
      rw [hasProperty_addProperty_cover]
      exact h
    · show hasProperty item.Properties "nav" = false
      exact h

theorem processItem_inv (idx : Nat) (vc : String) (acc : MergeAcc)
    (m : List (String × String)) (item : ManifestItem)
    (hI : manifestItemsOK acc.items) (hM : idMapOK m acc.items) :
    manifestItemsOK (processItem idx vc acc m item).1.items ∧
    idMapOK (processItem idx vc acc m item).2 (processItem idx vc acc m item).1.items ∧
    (∀ it ∈ acc.items, it ∈ (processItem idx vc acc m item).1.items) := by
  cases hnav : hasProperty item.Properties "nav" with
  | true =>
    rw [processItem_skip idx vc acc m item hnav]
    exact ⟨hI, hM, fun it h => h⟩
  | false =>
    obtain ⟨entry, hitems, hmap, hID, hprops⟩ := processItem_items_eq idx vc acc m item hnav
    rw [hitems, hmap]
    refine ⟨?_, ?_, ?_⟩
    · intro it hmem
      rcases List.mem_append.mp hmem with hmem | hmem
      · exact hI it hmem
      · have : it = entry := by simpa using hmem
        subst this
        exact ⟨hID ▸ remapID_ne_nav idx item.ID, hprops⟩
    · intro kv hkv
      rcases List.mem_cons.mp hkv with hkv | hkv
      · subst hkv
        exact ⟨entry, List.mem_append.mpr (Or.inr (by simp)), hID⟩
      · obtain ⟨it, hit, hid⟩ := hM kv hkv
        exact ⟨it, List.mem_append.mpr (Or.inl hit), hid⟩
    · intro it hmem
      exact List.mem_append.mpr (Or.inl hmem)

theorem processItems_inv (idx : Nat) (vc : String) :
    ∀ (items : List ManifestItem) (acc : MergeAcc) (m : List (String × String)),
    manifestItemsOK acc.items → idMapOK m acc.items →
    manifestItemsOK (processItems idx vc items acc m).1.items ∧
    idMapOK (processItems idx vc items acc m).2 (processItems idx vc items acc m).1.items ∧
    (∀ it ∈ acc.items, it ∈ (processItems idx vc items acc m).1.items) := by
  intro items
  induction items with
  | nil =>
    intro acc m hI hM
    exact ⟨hI, hM, fun it h => h⟩
  | cons it0 its ih =>
    intro acc m hI hM
    obtain ⟨h1, h2, h3⟩ := processItem_inv idx vc acc m it0 hI hM
    simp only [processItems]
    obtain ⟨g1, g2, g3⟩ :=
      ih (processItem idx vc acc m it0).1 (processItem idx vc acc m it0).2 h1 h2
    exact ⟨g1, g2, fun x hx => g3 x (h3 x hx)⟩

theorem processItems_refs (idx : Nat) (vc : String) :
    ∀ (items : List ManifestItem) (acc : MergeAcc) (m : List (String × String)),
    (processItems idx vc items acc m).1.refs = acc.refs := by
  intro items
  induction items with
  | nil => intro acc m; rfl
  | cons it0 its ih =>
    intro acc m
    simp only [processItems]
    rw [ih]
    exact processItem_refs idx vc acc m it0

theorem processRefs_inv (idMap idHref : List (String × String))
    (l : List ManifestItem) (hM : idMapOK idMap l) :
    ∀ (refs out : List SpineItemRef) (fh : String),
    spineRefsOK out l →
    spineRefsOK (processRefs idMap idHref refs out fh).1 l := by
  intro refs
  induction refs with
  | nil => intro out fh hout; exact hout
  | cons r0 rs ih =>
    intro out fh hout
    simp only [processRefs]
    cases hl : lookupAssoc idMap r0.IDRef with
    | none => exact ih out fh hout
    | some newID =>
      apply ih
      intro r1 hr1
      rcases List.mem_append.mp hr1 with h1 | h1
      · exact hout r1 h1
      · have : r1 = { IDRef := newID, Linear := r0.Linear } := by simpa using h1
        subst this
        exact hM _ (lookupAssoc_mem hl)

theorem mergeVolume_inv (acc : MergeAcc) (vol : Volume)
    (hI : manifestItemsOK acc.items) (hR : spineRefsOK acc.refs acc.items) :
    manifestItemsOK (mergeVolume acc vol).1.items ∧
    spineRefsOK (mergeVolume acc vol).1.refs (mergeVolume acc vol).1.items ∧
    (∀ it ∈ acc.items, it ∈ (mergeVolume acc vol).1.items) := by
  obtain ⟨h1, h2, h3⟩ :=
    processItems_inv vol.Index vol.CoverID vol.PackageDoc.Manifest.Items acc []
      hI (fun kv hkv => absurd hkv (by simp))
  have hrefs :=
    processItems_refs vol.Index vol.CoverID vol.PackageDoc.Manifest.Items acc []
  unfold mergeVolume
  set r1 := processItems vol.Index vol.CoverID vol.PackageDoc.Manifest.Items acc []
  have hacc2i :
      (if r1.1.pageDir = "" ∧ vol.PackageDoc.Spine.PageProgressionDirection ≠ "" then
        { r1.1 with pageDir := vol.PackageDoc.Spine.PageProgressionDirection }
      else r1.1).items = r1.1.items := by
    split <;> rfl
  have hacc2r :
      (if r1.1.pageDir = "" ∧ vol.PackageDoc.Spine.PageProgressionDirection ≠ "" then
        { r1.1 with pageDir := vol.PackageDoc.Spine.PageProgressionDirection }
      else r1.1).refs = r1.1.refs := by
    split <;> rfl
  refine ⟨?_, ?_, ?_⟩
  · simpa [hacc2i] using h1
  · simp only [hacc2i, hacc2r]
    intro r hr
    rcases List.mem_append.mp hr with hr | hr
    · rw [hrefs] at hr
      obtain ⟨it, hit, hid⟩ := hR r hr
      exact ⟨it, h3 it hit, hid⟩
    · exact processRefs_inv r1.2 _ r1.1.items h2 _ [] _
        (fun x hx => absurd hx (by simp)) r hr
  · intro it hmem
    simpa [hacc2i] using h3 it hmem

theorem mergeVolumes_inv :
    ∀ (vols : List Volume) (acc : MergeAcc),
    manifestItemsOK acc.items → spineRefsOK acc.refs acc.items →
    manifestItemsOK (mergeVolumes vols acc).1.items ∧
    spineRefsOK (mergeVolumes vols acc).1.refs (mergeVolumes vols acc).1.items := by
  intro vols
  induction vols with
  | nil => intro acc hI hR; exact ⟨hI, hR⟩
  | cons v vs ih =>
    intro acc hI hR
    simp only [mergeVolumes]
    obtain ⟨h1, h2, _⟩ := mergeVolume_inv acc v hI hR
    exact ih (mergeVolume acc v).1 h1 h2

/-- C1: for every merge of N ≥ 2 volumes, the merged manifest contains
exactly one item carrying the `nav` property token (the appended entry,
with id `nav` and href `nav.xhtml`), the reserved id `nav` collides with
no volume-remapped id, and every item-ref of the merged spine resolves to
the id of some merged manifest item. -/
theorem claim1_merged_manifest_invariants (vols : List Volume)
    (_hN : 2 ≤ vols.length) :
    ((mergeManifestSpine vols).manifest.Items.filter
        (fun it => hasProperty it.Properties "nav")).length = 1 ∧
    (∀ it ∈ (mergeManifestSpine vols).manifest.Items,
      hasProperty it.Properties "nav" = true →
      it.ID = "nav" ∧ it.Href = "nav.xhtml") ∧
    (∀ it ∈ (mergeManifestSpine vols).manifest.Items.dropLast, it.ID ≠ "nav") ∧
    (∀ r ∈ (mergeManifestSpine vols).spine.Itemrefs,
      ∃ it ∈ (mergeManifestSpine vols).manifest.Items, it.ID = r.IDRef) := by
  obtain ⟨hI, hR⟩ := mergeVolumes_inv vols {}
    (fun it h => absurd h (by simp)) (fun r h => absurd h (by simp))
  have hman : (mergeManifestSpine vols).manifest.Items =
      (mergeVolumes vols {}).1.items ++ [navManifestEntry] := rfl
  have hspine : (mergeManifestSpine vols).spine.Itemrefs =
      (mergeVolumes vols {}).1.refs := rfl
  have hnavprop : hasProperty navManifestEntry.Properties "nav" = true := by decide
  refine ⟨?_, ?_, ?_, ?_⟩
  · rw [hman, List.filter_append]
    rw [List.filter_eq_nil_iff.mpr (fun it hmem => by simp [(hI it hmem).2])]
    simp [hnavprop]
  · intro it hmem hprop
    rw [hman] at hmem
    rcases List.mem_append.mp hmem with hmem | hmem
    · exact absurd hprop (by simp [(hI it hmem).2])
    · have : it = navManifestEntry := by simpa using hmem
      subst this
      exact ⟨rfl, rfl⟩
  · intro it hmem
    rw [hman, List.dropLast_concat] at hmem
    exact (hI it hmem).1
  · intro r hr
    rw [hspine] at hr
    obtain ⟨it, hit, hid⟩ := hR r hr
    exact ⟨it, by rw [hman]; exact List.mem_append.mpr (Or.inl hit), hid⟩

/-- C1, witness: the invariants instantiated on a concrete two-volume
merge. -/
theorem claim1_witness :
    ((mergeManifestSpine sampleMergeVols).manifest.Items.filter
        (fun it => hasProperty it.Properties "nav")).length = 1 ∧
    (∀ it ∈ (mergeManifestSpine sampleMergeVols).manifest.Items.dropLast,
      it.ID ≠ "nav") ∧
    (∀ r ∈ (mergeManifestSpine sampleMergeVols).spine.Itemrefs,
      ∃ it ∈ (mergeManifestSpine sampleMergeVols).manifest.Items,
        it.ID = r.IDRef) :=
  have h := claim1_merged_manifest_invariants sampleMergeVols (by decide)
  ⟨h.1, h.2.2.1, h.2.2.2⟩

/-! ## Claim C6: hexadecimal formatting lemmas -/

theorem hexChars_length : ∀ (w v : Nat), (hexChars w v).length = w
  | 0, _ => rfl
  | w + 1, v => by simp [hexChars, hexChars_length w v]

theorem hexDigit_inj (m n : Nat) (hm : m < 16) (hn : n < 16)
    (h : hexDigit m = hexDigit n) : m = n := by
  have hall : ∀ x y : Fin 16, hexDigit x.val = hexDigit y.val → x = y := by decide
  have := hall ⟨m, hm⟩ ⟨n, hn⟩ h
  simpa [Fin.ext_iff] using this

theorem isHexChar_hexDigit (n : Nat) (hn : n < 16) : isHexChar (hexDigit n) = true := by
  have hall : ∀ x : Fin 16, isHexChar (hexDigit x.val) = true := by decide
  simpa using hall ⟨n, hn⟩

theorem hexChars_all_hex : ∀ (w v : Nat), ∀ c ∈ hexChars w v, isHexChar c = true := by
  intro w
  induction w with
  | zero => intro v c hc; simp [hexChars] at hc
  | succ w ih =>
    intro v c hc
    rcases List.mem_cons.mp hc with hc | hc
    · subst hc
      exact isHexChar_hexDigit _ (Nat.mod_lt _ (by norm_num))
    · exact ih v c hc

theorem hexChar_ne_dash (c : Char) (h : isHexChar c = true) : ¬c = '-' := by
  intro he
  subst he
  exact absurd h (by decide)

theorem mod_pow_succ16 (a w : Nat) :
    a % 16 ^ (w + 1) = a % 16 ^ w + 16 ^ w * (a / 16 ^ w % 16) := by
  rw [pow_succ]
  exact Nat.mod_mul

theorem hexChars_inj : ∀ (w a b : Nat), hexChars w a = hexChars w b →
    a % 16 ^ w = b % 16 ^ w := by
  intro w
  induction w with
  | zero => intro a b _; simp [Nat.mod_one]
  | succ w ih =>
    intro a b h
    simp only [hexChars, List.cons.injEq] at h
    have h1 := hexDigit_inj _ _ (Nat.mod_lt _ (by norm_num))
      (Nat.mod_lt _ (by norm_num)) h.1
    have h2 := ih a b h.2
    rw [mod_pow_succ16, mod_pow_succ16, h1, h2]

theorem splitDashAux_nodash : ∀ (g acc : List Char), (∀ c ∈ g, ¬c = '-') →
    splitDashAux g acc = [acc.reverse ++ g] := by
  intro g
  induction g with
  | nil => intro acc _; simp [splitDashAux]
  | cons c cs ih =>
    intro acc h
    have hc : ¬c = '-' := h c (by simp)
    simp only [splitDashAux, if_neg hc]
    rw [ih (c :: acc) (fun d hd => h d (by simp [hd]))]
    simp

theorem splitDashAux_append : ∀ (g rest acc : List Char), (∀ c ∈ g, ¬c = '-') →
    splitDashAux (g ++ '-' :: rest) acc =
      (acc.reverse ++ g) :: splitDashAux rest [] := by
  intro g
  induction g with
  | nil =>
    intro rest acc _
    simp [splitDashAux]
  | cons c cs ih =>
    intro rest acc h
    have hc : ¬c = '-' := h c (by simp)
    simp only [List.cons_append, splitDashAux, if_neg hc, List.append_eq]
    rw [ih rest (c :: acc) (fun d hd => h d (by simp [hd]))]
    simp

theorem and15_lor64 (b : Nat) : ((b &&& 15) ||| 64) = 64 + (b &&& 15) := by
  have hlt : b &&& 15 < 16 := Nat.lt_succ_of_le Nat.and_le_right
  have hall : ∀ x : Fin 16, ((x : Nat) ||| 64) = 64 + (x : Nat) := by decide
  exact hall ⟨_, hlt⟩

theorem and63_lor128 (b : Nat) : ((b &&& 63) ||| 128) = 128 + (b &&& 63) := by
  have hlt : b &&& 63 < 64 := Nat.lt_succ_of_le Nat.and_le_right
  have hall : ∀ x : Fin 64, ((x : Nat) ||| 128) = 128 + (x : Nat) := by decide
  exact hall ⟨_, hlt⟩

theorem randomURN_data (B : Bytes16) :
    (randomURN true B).data =
      "urn:uuid:".data ++ (hexChars 8 (beU32 B.b0 B.b1 B.b2 B.b3) ++ '-' ::
        (hexChars 4 (beU16 B.b4 B.b5) ++ '-' ::
        (hexChars 4 (beU16 ((B.b6 &&& 15) ||| 64) B.b7) ++ '-' ::
        (hexChars 4 (beU16 ((B.b8 &&& 63) ||| 128) B.b9) ++ '-' ::
        (hexChars 2 B.b10 ++ (hexChars 2 B.b11 ++ (hexChars 2 B.b12 ++
         (hexChars 2 B.b13 ++ (hexChars 2 B.b14 ++ hexChars 2 B.b15))))))))) := by
  simp [randomURN]

theorem append_dash_inj (g g' r r' : List Char) (h : g ++ '-' :: r = g' ++ '-' :: r')
    (hl : g.length = g'.length) : g = g' ∧ r = r' := by
  have := List.append_inj h hl
  exact ⟨this.1, by simpa using this.2⟩

theorem append_seg_inj (g g' r r' : List Char) (h : g ++ r = g' ++ r')
    (hl : g.length = g'.length) : g = g' ∧ r = r' :=
  List.append_inj h hl

theorem hexChars_nodash (w v : Nat) : ∀ c ∈ hexChars w v, ¬c = '-' :=
  fun c hc => hexChar_ne_dash c (hexChars_all_hex w v c hc)

theorem randomURN_split (B : Bytes16) :
    splitDashAux ((randomURN true B).data.drop 9) [] =
      [hexChars 8 (beU32 B.b0 B.b1 B.b2 B.b3),
       hexChars 4 (beU16 B.b4 B.b5),
       hexChars 4 (beU16 ((B.b6 &&& 15) ||| 64) B.b7),
       hexChars 4 (beU16 ((B.b8 &&& 63) ||| 128) B.b9),
       hexChars 2 B.b10 ++ (hexChars 2 B.b11 ++ (hexChars 2 B.b12 ++
         (hexChars 2 B.b13 ++ (hexChars 2 B.b14 ++ hexChars 2 B.b15))))] := by
  rw [randomURN_data]
  rw [show (9 : Nat) = ("urn:uuid:".data).length from rfl, List.drop_left]
  rw [splitDashAux_append _ _ _ (hexChars_nodash 8 _)]
  rw [splitDashAux_append _ _ _ (hexChars_nodash 4 _)]
  rw [splitDashAux_append _ _ _ (hexChars_nodash 4 _)]
  rw [splitDashAux_append _ _ _ (hexChars_nodash 4 _)]
  rw [splitDashAux_nodash _ _ (by
    intro c hc
    simp only [List.mem_append] at hc
    rcases hc with h | h | h | h | h | h <;> exact hexChars_nodash 2 _ c h)]
  simp

theorem randomURN_take9 (B : Bytes16) :
    (randomURN true B).data.take 9 = "urn:uuid:".data := by
  rw [randomURN_data]
  rw [show (9 : Nat) = ("urn:uuid:".data).length from rfl, List.take_left]

/-- C6, counterexample: when the `crypto/rand` read fails, `randomURN`
returns the fixed all-zero UUID URN, which is not a version-4 URN (its
version nibble is `0`), is the package identifier `buildPackage` emits,
and is identical across runs regardless of the random draw — so "always a
freshly generated random UUID-v4 URN" does not hold on the error
branch. -/
theorem claim6_counterexample :
    randomURN false {} = "urn:uuid:00000000-0000-0000-0000-000000000000" ∧
    isV4URN "urn:uuid:00000000-0000-0000-0000-000000000000" = false ∧
    (buildPackage [] {} {} {} "" false {}).Metadata.Identifiers =
      [{ ID := "bookid", Value := "urn:uuid:00000000-0000-0000-0000-000000000000" }] ∧
    randomURN false {} = randomURN false { b0 := 1 } := by
  refine ⟨rfl, by decide, rfl, rfl⟩

/-- C6, amended: the merged package always carries exactly one
identifier, with ID `bookid` matching the declared unique-identifier
reference `bookid`, whose value is `randomURN` of the fresh random bytes
(hence never copied from a source volume — it does not depend on the
volumes at all).  When the random read succeeds the value is a well-formed
version-4 UUID URN (version and variant bits set), and two values agree
only when the two random draws agree on every non-forced bit; when the
random read fails the value is the fixed all-zero UUID URN. -/
theorem claim6_identifier_amended :
    (∀ vols manifest spine opts coverID (B : Bytes16),
      (buildPackage vols manifest spine opts coverID true B).Metadata.Identifiers =
        [{ ID := "bookid", Value := randomURN true B }] ∧
      (buildPackage vols manifest spine opts coverID true B).UniqueIdentifier =
        "bookid") ∧
    (∀ B : Bytes16, B.wf → isV4URN (randomURN true B) = true) ∧
    (∀ B C : Bytes16, B.wf → C.wf →
      randomURN true B = randomURN true C → maskedEq B C) := by
  refine ⟨?_, ?_, ?_⟩
  · intro vols manifest spine opts coverID B
    exact ⟨rfl, rfl⟩
  · intro B hwf
    obtain ⟨h0, h1, h2, h3, h4, h5, h6, h7, h8, h9, h10, h11, h12, h13, h14, h15⟩ := hwf
    have hl6 : B.b6 &&& 15 < 16 := Nat.lt_succ_of_le Nat.and_le_right
    have hl8 : B.b8 &&& 63 < 64 := Nat.lt_succ_of_le Nat.and_le_right
    have hhead3 : (hexChars 4 (beU16 ((B.b6 &&& 15) ||| 64) B.b7)).head? = some '4' := by
      have hdiv : beU16 ((B.b6 &&& 15) ||| 64) B.b7 / 16 ^ 3 % 16 = 4 := by
        rw [and15_lor64]
        have : beU16 (64 + (B.b6 &&& 15)) B.b7 / 4096 = 4 := by
          unfold beU16
          omega
        rw [show (16 : Nat) ^ 3 = 4096 from by norm_num, this]
      rw [show hexChars 4 (beU16 ((B.b6 &&& 15) ||| 64) B.b7) =
        hexDigit (beU16 ((B.b6 &&& 15) ||| 64) B.b7 / 16 ^ 3 % 16) ::
          hexChars 3 (beU16 ((B.b6 &&& 15) ||| 64) B.b7) from rfl]
      rw [hdiv]
      rfl
    have hd4 : beU16 ((B.b8 &&& 63) ||| 128) B.b9 / 4096 % 16 = 8 ∨
        beU16 ((B.b8 &&& 63) ||| 128) B.b9 / 4096 % 16 = 9 ∨
        beU16 ((B.b8 &&& 63) ||| 128) B.b9 / 4096 % 16 = 10 ∨
        beU16 ((B.b8 &&& 63) ||| 128) B.b9 / 4096 % 16 = 11 := by
      rw [and63_lor128]
      unfold beU16
      omega
    have hhead4 : (hexChars 4 (beU16 ((B.b8 &&& 63) ||| 128) B.b9)).head? =
        some (hexDigit (beU16 ((B.b8 &&& 63) ||| 128) B.b9 / 16 ^ 3 % 16)) := rfl
    unfold isV4URN
    rw [randomURN_split B, randomURN_take9 B]
    simp only [beq_self_eq_true, Bool.true_and]
    rcases hd4 with hv | hv | hv | hv <;>
      simp [hexChars_length, List.all_eq_true, hhead3, hhead4, hv,
        List.length_append, hexDigit] <;>
      exact ⟨hexChars_all_hex _ _, hexChars_all_hex _ _, hexChars_all_hex _ _,
        hexChars_all_hex _ _, hexChars_all_hex _ _, hexChars_all_hex _ _,
        hexChars_all_hex _ _, hexChars_all_hex _ _, hexChars_all_hex _ _,
        hexChars_all_hex _ _⟩
  · intro B C hB hC heq
    obtain ⟨b0, b1, b2, b3, b4, b5, b6, b7, b8, b9, b10, b11, b12, b13, b14, b15⟩ := hB
    obtain ⟨c0, c1, c2, c3, c4, c5, c6, c7, c8, c9, c10, c11, c12, c13, c14, c15⟩ := hC
    have hl6 : B.b6 &&& 15 < 16 := Nat.lt_succ_of_le Nat.and_le_right
    have hl8 : B.b8 &&& 63 < 64 := Nat.lt_succ_of_le Nat.and_le_right
    have kl6 : C.b6 &&& 15 < 16 := Nat.lt_succ_of_le Nat.and_le_right
    have kl8 : C.b8 &&& 63 < 64 := Nat.lt_succ_of_le Nat.and_le_right
    have hdata := congrArg String.data heq
    rw [randomURN_data B, randomURN_data C] at hdata
    have hrest := List.append_cancel_left hdata
    obtain ⟨e1, hrest⟩ := append_dash_inj _ _ _ _ hrest
      (by rw [hexChars_length, hexChars_length])
    obtain ⟨e2, hrest⟩ := append_dash_inj _ _ _ _ hrest
      (by rw [hexChars_length, hexChars_length])
    obtain ⟨e3, hrest⟩ := append_dash_inj _ _ _ _ hrest
      (by rw [hexChars_length, hexChars_length])
    obtain ⟨e4, hrest⟩ := append_dash_inj _ _ _ _ hrest
      (by rw [hexChars_length, hexChars_length])
    obtain ⟨e5, hrest⟩ := append_seg_inj (hexChars 2 B.b10) (hexChars 2 C.b10) _ _ hrest
      (by rw [hexChars_length, hexChars_length])
    obtain ⟨e6, hrest⟩ := append_seg_inj (hexChars 2 B.b11) (hexChars 2 C.b11) _ _ hrest
      (by rw [hexChars_length, hexChars_length])
    obtain ⟨e7, hrest⟩ := append_seg_inj (hexChars 2 B.b12) (hexChars 2 C.b12) _ _ hrest
      (by rw [hexChars_length, hexChars_length])
    obtain ⟨e8, hrest⟩ := append_seg_inj (hexChars 2 B.b13) (hexChars 2 C.b13) _ _ hrest
      (by rw [hexChars_length, hexChars_length])
    obtain ⟨e9, e10⟩ := append_seg_inj (hexChars 2 B.b14) (hexChars 2 C.b14) _ _ hrest
      (by rw [hexChars_length, hexChars_length])
    have byteEq : ∀ a b : Nat, hexChars 2 a = hexChars 2 b → a < 256 → b < 256 →
        a = b := by
      intro a b h ha hb
      have := hexChars_inj 2 a b h
      rwa [Nat.mod_eq_of_lt (by omega), Nat.mod_eq_of_lt (by omega)] at this
    have u16Eq : ∀ a b a2 b2 : Nat,
        hexChars 4 (beU16 a b) = hexChars 4 (beU16 a2 b2) →
        a < 256 → b < 256 → a2 < 256 → b2 < 256 → a = a2 ∧ b = b2 := by
      intro a b a2 b2 h ha hb ha2 hb2
      have := hexChars_inj 4 _ _ h
      rw [Nat.mod_eq_of_lt (by unfold beU16; omega),
        Nat.mod_eq_of_lt (by unfold beU16; omega)] at this
      unfold beU16 at this
      omega
    have v1 := hexChars_inj 8 _ _ e1
    rw [Nat.mod_eq_of_lt (by unfold beU32; omega),
      Nat.mod_eq_of_lt (by unfold beU32; omega)] at v1
    unfold beU32 at v1
    have v2 := u16Eq _ _ _ _ e2 b4 b5 c4 c5
    have v3 := u16Eq _ _ _ _
      (by rw [and15_lor64, and15_lor64] at e3; exact e3) (by omega) b7 (by omega) c7
    have v4 := u16Eq _ _ _ _
      (by rw [and63_lor128, and63_lor128] at e4; exact e4) (by omega) b9 (by omega) c9
    refine ⟨by omega, by omega, by omega, by omega, v2.1, v2.2, ?_, v3.2, ?_, v4.2,
      byteEq _ _ e5 b10 c10, byteEq _ _ e6 b11 c11, byteEq _ _ e7 b12 c12,
      byteEq _ _ e8 b13 c13, byteEq _ _ e9 b14 c14, byteEq _ _ e10 b15 c15⟩
    · have := v3.1
      omega
    · have := v4.1
      omega

/-- C6, witness: the amended theorem at a concrete random draw. -/
theorem claim6_witness :
    (buildPackage [] {} {} {} "" true { b6 := 171, b8 := 202 }).Metadata.Identifiers =
      [{ ID := "bookid", Value := randomURN true { b6 := 171, b8 := 202 } }] ∧
    isV4URN (randomURN true { b6 := 171, b8 := 202 }) = true ∧
    maskedEq { b6 := 171, b8 := 202 } { b6 := 171, b8 := 202 } :=
  ⟨(claim6_identifier_amended.1 [] {} {} {} "" { b6 := 171, b8 := 202 }).1,
   claim6_identifier_amended.2.1 { b6 := 171, b8 := 202 } (by decide),
   claim6_identifier_amended.2.2 { b6 := 171, b8 := 202 } { b6 := 171, b8 := 202 }
     (by decide) (by decide) rfl⟩

end Novfmt
